import Mathlib

/-!
Verification development for the Logitech touch-mouse (`hid-logitech-tm.c`) and
wireless-touchpad (`hid-logitech-wtp.c`) HID drivers.

The drivers are shallowly embedded: the report-processing functions become pure
Lean functions from a state and an incoming byte record to a new state together
with the list of input events the C code would emit.  Machine integers are
modelled as `Nat` (with explicit `% 2^w` at the points where the C code
truncates), signed quantities as `Int`.
-/

namespace LogitechTM

/-! ### Data model of `hid-logitech-tm.c` -/

/-- `struct tm_touchpad_info` (geometry reported by the device). -/
structure TmInfo where
  xSize : Nat
  ySize : Nat
  resolution : Nat
  originPosition : Nat
  maxFingers : Nat
  maxWidth : Nat
  deriving DecidableEq, Repr

/-- The mutable per-device state that `emit_fingers` reads and writes:
`fd->prev_slots_used` (a `u8` bit mask) and `fd->next_tracking_id` (`u16`). -/
structure TmState where
  prevSlotsUsed : Nat
  nextTrackingId : Nat
  deriving DecidableEq, Repr

/-- `tm_probe` initialisation: `fd->prev_slots_used = 0; fd->next_tracking_id = 1;`. -/
def tmInitState : TmState := ⟨0, 1⟩

/-- The `ORIGIN_*` constants of the driver. -/
def ORIGIN_LOWER_LEFT : Nat := 1
def ORIGIN_LOWER_RIGHT : Nat := 2
def ORIGIN_UPPER_LEFT : Nat := 3
def ORIGIN_UPPER_RIGHT : Nat := 4

/-- `swap_x = origin == ORIGIN_LOWER_RIGHT || origin == ORIGIN_UPPER_RIGHT`. -/
def swapX (cfg : TmInfo) : Bool :=
  cfg.originPosition == ORIGIN_LOWER_RIGHT || cfg.originPosition == ORIGIN_UPPER_RIGHT

/-- `swap_y = origin == ORIGIN_LOWER_LEFT || origin == ORIGIN_LOWER_RIGHT`. -/
def swapY (cfg : TmInfo) : Bool :=
  cfg.originPosition == ORIGIN_LOWER_LEFT || cfg.originPosition == ORIGIN_LOWER_RIGHT

/-- One 4-byte touch record `u8 *rec = bytes + 4*i`. -/
structure TouchRec where
  b0 : Nat
  b1 : Nat
  b2 : Nat
  b3 : Nat
  deriving DecidableEq, Repr

/-- The 4-byte record for slot `i` inside a raw-points report payload. -/
def recAt (bytes : List Nat) (i : Nat) : TouchRec :=
  ⟨bytes.getD (4 * i) 0, bytes.getD (4 * i + 1) 0,
   bytes.getD (4 * i + 2) 0, bytes.getD (4 * i + 3) 0⟩

/-- `rec[0] == 0xff && rec[1] == 0xff && rec[2] == 0xff && rec[3] == 0xff`. -/
def isSentinel (r : TouchRec) : Bool :=
  r.b0 == 255 && r.b1 == 255 && r.b2 == 255 && r.b3 == 255

/-- `x_pos = ((int)rec[0])<<4 | (rec[2] & 0xf)`. -/
def rawX (r : TouchRec) : Nat := r.b0 * 16 + r.b2 % 16

/-- `y_pos = ((int)rec[1])<<4 | (rec[2] >> 4)`. -/
def rawY (r : TouchRec) : Nat := r.b1 * 16 + r.b2 / 16

/-- `width_x = (rec[3] >> 4) + 1`. -/
def widthX (r : TouchRec) : Nat := r.b3 / 16 + 1

/-- `width_y = (rec[3] & 0xf) + 1`. -/
def widthY (r : TouchRec) : Nat := r.b3 % 16 + 1

/-- `MIN(MAX(30, width_x * width_y * 3), 255)`. -/
def pressureOf (r : TouchRec) : Nat := min (max 30 (widthX r * widthY r * 3)) 255

/-- Input events emitted by `emit_fingers` via `input_mt_slot` / `input_event`. -/
inductive TmEvent where
  | mtSlot (slot : Nat)
  | trackingId (slot : Nat) (value : Int)
  | posX (slot : Nat) (value : Int)
  | posY (slot : Nat) (value : Int)
  | pressure (slot : Nat) (value : Int)
  | toolFinger (pressed : Bool)
  | toolDouble (pressed : Bool)
  | toolTriple (pressed : Bool)
  | toolQuad (pressed : Bool)
  deriving DecidableEq, Repr

/-- `fd->next_tracking_id++; if (fd->next_tracking_id == 0xffff) fd->next_tracking_id = 1;`
(the increment is `u16` arithmetic). -/
def wrapSucc (n : Nat) : Nat :=
  let m := (n + 1) % 65536
  if m = 65535 then 1 else m

/-- `u8 slot_mask = 1 << i;` (truncated to 8 bits). -/
def slotMask (i : Nat) : Nat := (1 <<< i) % 256

/-- The test `!(fd->prev_slots_used & slot_mask)` deciding whether slot `i` is a
new finger. -/
def newTest (prev : Nat) (i : Nat) : Bool := prev &&& slotMask i == 0

/-- One iteration of the `for` loop body of `emit_fingers`, for slot `i` holding
record `r`, with `su` the `slots_used` accumulated so far and `nid` the current
`next_tracking_id`.  Returns the updated `(slots_used, next_tracking_id)` and
the events emitted for this slot. -/
def slotStep (cfg : TmInfo) (prev i su nid : Nat) (r : TouchRec) :
    Nat × Nat × List TmEvent :=
  if isSentinel r then
    (su, nid, [TmEvent.mtSlot i, TmEvent.trackingId i (-1)])
  else
    let newFinger := newTest prev i
    let assignEvs := if newFinger then [TmEvent.trackingId i (Int.ofNat nid)] else []
    let nid2 := if newFinger then wrapSucc nid else nid
    let xv : Int := if swapX cfg then (cfg.xSize : Int) - rawX r else (rawX r : Int)
    let yv : Int := if swapY cfg then (cfg.ySize : Int) - rawY r else (rawY r : Int)
    (su ||| slotMask i, nid2,
      TmEvent.mtSlot i :: assignEvs ++
        [TmEvent.posX i xv, TmEvent.posY i yv,
         TmEvent.pressure i (Int.ofNat (pressureOf r))])

/-- The `for (i = 0; i < fd->tp_info.max_fingers; i++)` loop of `emit_fingers`:
`count` iterations remain, the current index is `i`. -/
def emitGo (cfg : TmInfo) (prev : Nat) (bytes : List Nat) :
    Nat → Nat → Nat → Nat → Nat × Nat × List TmEvent
  | 0, _, su, nid => (su, nid, [])
  | count + 1, i, su, nid =>
    let s := slotStep cfg prev i su nid (recAt bytes i)
    let rest := emitGo cfg prev bytes count (i + 1) s.1 s.2.1
    (rest.1, rest.2.1, s.2.2 ++ rest.2.2)

/-- `emit_fingers`: processes one raw-points payload, returning the new state
(`prev_slots_used := slots_used`, updated `next_tracking_id`) and the emitted
events, ending with the four `BTN_TOOL_*` classification events. -/
def emitFingers (cfg : TmInfo) (st : TmState) (bytes : List Nat) :
    TmState × List TmEvent :=
  let r := emitGo cfg st.prevSlotsUsed bytes cfg.maxFingers 0 0 st.nextTrackingId
  (⟨r.1, r.2.1⟩,
    r.2.2 ++ [TmEvent.toolFinger (r.1 == 1), TmEvent.toolDouble (r.1 == 2),
      TmEvent.toolTriple (r.1 == 3), TmEvent.toolQuad (r.1 == 4)])

/-! ### Observer of the emitted event stream

The kernel input core interprets an `ABS_MT_TRACKING_ID` event with value `-1`
as retiring the current slot and a non-negative value as assigning that
tracking id to the slot.  The observer below records, per slot, the tracking id
currently carried by the slot according to the event stream. -/

/-- Apply one event to the per-slot tracking-id view. -/
def obsApply (obs : List (Option Int)) (e : TmEvent) : List (Option Int) :=
  match e with
  | TmEvent.trackingId i v => obs.set i (if v < 0 then none else some v)
  | _ => obs

/-- Apply a whole event list. -/
def obsRun (obs : List (Option Int)) (evs : List TmEvent) : List (Option Int) :=
  evs.foldl obsApply obs

/-- Driver state paired with the observer view of the event stream. -/
structure TmRun where
  st : TmState
  obs : List (Option Int)
  deriving DecidableEq, Repr

/-- Process one report. -/
def tmFrameStep (cfg : TmInfo) (r : TmRun) (bytes : List Nat) : TmRun :=
  let p := emitFingers cfg r.st bytes
  ⟨p.1, obsRun r.obs p.2⟩

/-- Process a sequence of reports. -/
def tmProcess (cfg : TmInfo) (r : TmRun) (frames : List (List Nat)) : TmRun :=
  frames.foldl (tmFrameStep cfg) r

/-- The run started right after `tm_probe`. -/
def tmInitRun (cfg : TmInfo) : TmRun :=
  ⟨tmInitState, List.replicate cfg.maxFingers none⟩

/-- The tracking ids allocated (assign events) in an event list, in order. -/
def allocsOfEvents (evs : List TmEvent) : List Nat :=
  evs.filterMap (fun e =>
    match e with
    | TmEvent.trackingId _ v => if v < 0 then none else some v.toNat
    | _ => none)

/-- All tracking ids allocated over a run, in order. -/
def allocSeq (cfg : TmInfo) (st : TmState) : List (List Nat) → List Nat
  | [] => []
  | f :: fs =>
    let p := emitFingers cfg st f
    allocsOfEvents p.2 ++ allocSeq cfg p.1 fs

/-- `true` for a tracking-id assignment event of slot `i`. -/
def allocEventFor (i : Nat) (e : TmEvent) : Bool :=
  match e with
  | TmEvent.trackingId j v => j == i && decide (0 ≤ v)
  | _ => false

/-- `true` for any tracking-id event of slot `i`. -/
def trackingFor (i : Nat) (e : TmEvent) : Bool :=
  match e with
  | TmEvent.trackingId j _ => j == i
  | _ => false

/-- `true` for a tracking-id assignment (allocation) event of any slot. -/
def isAllocEvent (e : TmEvent) : Bool :=
  match e with
  | TmEvent.trackingId _ v => decide (0 ≤ v)
  | _ => false

end LogitechTM

namespace LogitechWTP

/-! ### Data model of `hid-logitech-wtp.c` -/

/-- `struct touch_hidpp_report`: one 7-byte packed touch sub-record. -/
structure TouchHidppRec where
  xM : Nat
  xL : Nat
  yM : Nat
  yL : Nat
  z : Nat
  area : Nat
  id : Nat
  deriving DecidableEq, Repr

/-- `struct dual_touch_hidpp_report`. -/
structure DualTouchHidppRec where
  reportId : Nat
  deviceIndex : Nat
  featureIndex : Nat
  broadcastEvent : Nat
  timestamp : Nat
  t0 : TouchHidppRec
  t1 : TouchHidppRec
  deriving DecidableEq, Repr

/-- `struct hidpp_touchpad_raw_xy_finger`. -/
structure RawXYFinger where
  contactType : Nat
  contactStatus : Nat
  x : Nat
  y : Nat
  z : Nat
  area : Nat
  fingerId : Nat
  deriving DecidableEq, Repr

/-- `struct hidpp_touchpad_raw_xy`.  In the C code `fingers[1]` is only written
when the second sub-record is decoded; since `hidpp_touchpad_touch_event` is a
pure function and `wtp_touchpad_raw_xy_event` re-checks the identical condition
before reading `fingers[1]`, decoding both sub-records unconditionally is
observationally identical. -/
structure RawXY where
  timestamp : Nat
  finger0 : RawXYFinger
  finger1 : RawXYFinger
  spuriousFlag : Nat
  endOfFrame : Nat
  fingerCount : Nat
  deriving DecidableEq, Repr

/-- `hidpp_touchpad_touch_event`: unpack one 7-byte sub-record. -/
def decodeTouch (t : TouchHidppRec) : RawXYFinger :=
  let xm := (t.xM <<< 2) % 256
  let ym := (t.yM <<< 2) % 256
  { contactType := t.xM >>> 6
    x := ((xm <<< 6) ||| t.xL) % 65536
    contactStatus := t.yM >>> 6
    y := ((ym <<< 6) ||| t.yL) % 65536
    fingerId := t.id >>> 4
    z := t.z
    area := t.area }

/-- Header decode in `hidpp_touchpad_raw_xy_event`: end-of-frame, spurious flag
and finger count come from the two trailing `id` bytes. -/
def decodeDualTouch (rep : DualTouchHidppRec) : RawXY :=
  { timestamp := rep.timestamp
    endOfFrame := rep.t0.id &&& 1
    spuriousFlag := (rep.t0.id >>> 1) &&& 1
    fingerCount := rep.t1.id &&& 15
    finger0 := decodeTouch rep.t0
    finger1 := decodeTouch rep.t1 }

/-- `struct wtp_mt_slot`. -/
structure WtpSlot where
  touchState : Bool
  seenInThisFrame : Bool
  deriving DecidableEq, Repr

/-- `ARRAY_SIZE(fd->slots)`: the slot array has 5 entries, indices `0..4`. -/
def wtpSlotCount : Nat := 5

/-- The slot state of `struct wtp_data`.  The C array `slots[5]` is indexed by
the `int slot` computed in `wtp_touch_event` without a bounds check, so the
model keeps a total map on `Int`; accesses outside `[0, wtpSlotCount)` are
exactly the out-of-bounds accesses of the C code. -/
structure WtpState where
  slots : Int → WtpSlot

/-- Events emitted through the input core by the wtp driver. -/
inductive WtpEvent where
  | mtSlot (slot : Int)
  | slotState (slot : Int) (active : Bool)
  | posX (slot : Int) (value : Nat)
  | posY (slot : Int) (value : Nat)
  | pressure (slot : Int) (value : Nat)
  | pointerEmulation
  | toolFinger (pressed : Bool)
  | toolDouble (pressed : Bool)
  | toolTriple (pressed : Bool)
  | toolQuad (pressed : Bool)
  | sync
  deriving DecidableEq, Repr

/-- `int slot = touch_report->finger_id - 1;` in `wtp_touch_event`. -/
def wtpSlotIndex (f : RawXYFinger) : Int := (f.fingerId : Int) - 1

/-- `wtp_touch_event`: mark the slot seen, record its touch state, and emit the
slot events (position/pressure only while in contact). -/
def wtpTouchEvent (st : WtpState) (f : RawXYFinger) : WtpState × List WtpEvent :=
  let slot := wtpSlotIndex f
  let status := f.contactStatus != 0
  (⟨fun j => if j = slot then ⟨status, true⟩ else st.slots j⟩,
    [WtpEvent.mtSlot slot, WtpEvent.slotState slot status] ++
      (if status then
        [WtpEvent.posX slot f.x, WtpEvent.posY slot f.y, WtpEvent.pressure slot f.area]
      else []))

/-- The sub-records actually passed to `wtp_touch_event` by
`wtp_touchpad_raw_xy_event`: `fingers[0]` whenever `finger_count` is non-zero,
and additionally `fingers[1]` when
`(end_of_frame && finger_count == 4) || (!end_of_frame && finger_count >= 2)`. -/
def appliedFingers (raw : RawXY) : List RawXYFinger :=
  if raw.fingerCount = 0 then []
  else if (raw.endOfFrame ≠ 0 ∧ raw.fingerCount = 4) ∨
          (raw.endOfFrame = 0 ∧ 2 ≤ raw.fingerCount) then [raw.finger0, raw.finger1]
  else [raw.finger0]

/-- Apply `wtp_touch_event` to a list of sub-records in order. -/
def wtpApplyList (st : WtpState) : List RawXYFinger → WtpState × List WtpEvent
  | [] => (st, [])
  | f :: fs =>
    let p := wtpTouchEvent st f
    let rest := wtpApplyList p.1 fs
    (rest.1, p.2 ++ rest.2)

/-- The touch-event phase of `wtp_touchpad_raw_xy_event` (its first `if` block). -/
def wtpTouchPhase (st : WtpState) (raw : RawXY) : WtpState × List WtpEvent :=
  wtpApplyList st (appliedFingers raw)

/-- The indices walked by `for (i = 0; i < ARRAY_SIZE(fd->slots); i++)`. -/
def sweepIndices : List Int := [0, 1, 2, 3, 4]

/-- The per-slot effect of one sweep iteration: a slot still active but not seen
in this frame is retired, and `seen_in_this_frame` is always cleared.  Each loop
iteration of the C code touches only `fd->slots[i]`, so the loop acts pointwise. -/
def sweepSlot (s : WtpSlot) : WtpSlot := ⟨s.touchState && s.seenInThisFrame, false⟩

/-- The frame-boundary sweep of `wtp_touchpad_raw_xy_event`. -/
def wtpSweep (st : WtpState) : WtpState × List WtpEvent :=
  (⟨fun j => if j ∈ sweepIndices then sweepSlot (st.slots j) else st.slots j⟩,
    (sweepIndices.map (fun i =>
      if !(st.slots i).seenInThisFrame && (st.slots i).touchState then
        [WtpEvent.mtSlot i, WtpEvent.slotState i false]
      else [])).flatten)

/-- `wtp_touchpad_raw_xy_event` (after the `initialized` guard): apply the
decoded sub-records, then, at a frame boundary
(`end_of_frame || finger_count <= 2`), run the retirement sweep and emit the
pointer-emulation, tool-classification and sync events. -/
def wtpRawXYEvent (st : WtpState) (raw : RawXY) : WtpState × List WtpEvent :=
  let p := wtpTouchPhase st raw
  if raw.endOfFrame ≠ 0 ∨ raw.fingerCount ≤ 2 then
    let s := wtpSweep p.1
    (s.1, p.2 ++ s.2 ++
      [WtpEvent.pointerEmulation,
       WtpEvent.toolFinger (raw.fingerCount == 1),
       WtpEvent.toolDouble (raw.fingerCount == 2),
       WtpEvent.toolTriple (raw.fingerCount == 3),
       WtpEvent.toolQuad (raw.fingerCount == 4),
       WtpEvent.sync])
  else (p.1, p.2)

/-- `hidpp_touchpad_raw_xy_event`: decode a dual-touch report and process it. -/
def hidppTouchpadRawXYEvent (st : WtpState) (rep : DualTouchHidppRec) :
    WtpState × List WtpEvent :=
  wtpRawXYEvent st (decodeDualTouch rep)

end LogitechWTP

namespace LogitechTM

/-! ### The button arbiter `emit_buttons` of `hid-logitech-tm.c`

`emit_buttons` receives the raw report as a byte buffer (the driver passes
`(u8 *)hidpp_report`) and consults bytes 0..5 only. -/

/-- The non-`NONE` values of `fd->button_depressor[i]`:
`DEPRESSOR_MOUSE`, `DEPRESSOR_RAWPTS`, `DEPRESSOR_1B03`.
`DEPRESSOR_NONE` is modelled by `Option.none`. -/
inductive Depressor where
  | mouse
  | rawPoints
  | aux1b03
  deriving DecidableEq, Repr

/-- The configuration fields of `tm_data` read by `emit_buttons`. -/
structure BtnCfg where
  ignoreMouseReportButtons : Bool
  mtFeatureIndex : Nat
  feature1b03 : Nat
  deriving DecidableEq, Repr

/-- `fd->button_depressor[3]`, index 0 = `BTN_LEFT`, 1 = `BTN_RIGHT`,
2 = `BTN_MIDDLE`. -/
structure BtnState where
  left : Option Depressor
  right : Option Depressor
  middle : Option Depressor
  deriving DecidableEq, Repr

/-- `input_report_key` events sent at the end of `emit_buttons`. -/
inductive BtnEvent where
  | key (button : Nat) (down : Bool)
  deriving DecidableEq, Repr

/-- Byte `k` of the report buffer. -/
def bgetD (bytes : List Nat) (k : Nat) : Nat := bytes.getD k 0

/-- The shared update pattern of every branch of `emit_buttons`:
`if (!dep && down) dep = k; else if (dep == k && !down) dep = NONE;`. -/
def depUpdate (cur : Option Depressor) (k : Depressor) (down : Bool) : Option Depressor :=
  if cur = none ∧ down then some k
  else if cur = some k ∧ ¬down then none
  else cur

/-- `emit_buttons`: three sources may assert/release the three buttons.
Byte 0 is the report id, byte 1 the mouse-report button bits, byte 2 the
feature index of a `0x11` report, byte 3 its `(sub_event << 4)` selector and
bytes 4/5 its first parameters. -/
def emitButtons (cfg : BtnCfg) (s : BtnState) (bytes : List Nat) :
    BtnState × List BtnEvent :=
  let s1 := if bgetD bytes 0 = 2 ∧ ¬cfg.ignoreMouseReportButtons then
      { left := depUpdate s.left Depressor.mouse (bgetD bytes 1 &&& 1 != 0)
        right := depUpdate s.right Depressor.mouse (bgetD bytes 1 &&& 2 != 0)
        middle := depUpdate s.middle Depressor.mouse (bgetD bytes 1 &&& 4 != 0) }
    else s
  let s2 := if bgetD bytes 0 = 0x11 ∧ bgetD bytes 2 = cfg.feature1b03 then
      { s1 with middle := depUpdate s1.middle Depressor.aux1b03 (bgetD bytes 5 != 0) }
    else s1
  let s3 := if bgetD bytes 0 = 0x11 ∧ bgetD bytes 2 = cfg.mtFeatureIndex ∧
               bgetD bytes 3 >>> 4 = 1 then
      { s2 with left := depUpdate s2.left Depressor.rawPoints (bgetD bytes 4 &&& 2 != 0) }
    else s2
  (s3,
    [BtnEvent.key 0 (s3.left ≠ none), BtnEvent.key 1 (s3.right ≠ none),
     BtnEvent.key 2 (s3.middle ≠ none)])

/-- Depressor of button `b` (0 = left, 1 = right, 2 = middle). -/
def selButton (s : BtnState) (b : Fin 3) : Option Depressor :=
  match b with
  | ⟨0, _⟩ => s.left
  | ⟨1, _⟩ => s.right
  | ⟨2, _⟩ => s.middle

/-- Whether the report in `bytes` carries, for report kind `k`, an observation
of button `b` (and in that case whether the observation is "down").  This is
the branch-enable condition of the corresponding `if` in `emit_buttons`. -/
def reportsButton (cfg : BtnCfg) (bytes : List Nat) (b : Fin 3) (k : Depressor) :
    Option Bool :=
  match k with
  | Depressor.mouse =>
    if bgetD bytes 0 = 2 ∧ ¬cfg.ignoreMouseReportButtons then
      some (bgetD bytes 1 &&& (1 <<< (b : Nat)) != 0)
    else none
  | Depressor.aux1b03 =>
    if (b : Nat) = 2 ∧ bgetD bytes 0 = 0x11 ∧ bgetD bytes 2 = cfg.feature1b03 then
      some (bgetD bytes 5 != 0)
    else none
  | Depressor.rawPoints =>
    if (b : Nat) = 0 ∧ bgetD bytes 0 = 0x11 ∧ bgetD bytes 2 = cfg.mtFeatureIndex ∧
         bgetD bytes 3 >>> 4 = 1 then
      some (bgetD bytes 4 &&& 2 != 0)
    else none

/-! ### Accounting helpers for the tracking-id allocator -/

/-- Whether processing slot `i` allocates a tracking id: the record is not the
sentinel and the slot was not previously used. -/
def allocAt (prev : Nat) (bytes : List Nat) (i : Nat) : Bool :=
  !isSentinel (recAt bytes i) && newTest prev i

/-- Number of tracking-id allocations while processing slots
`i0, i0+1, ..., i0+k-1`. -/
def allocCnt (prev : Nat) (bytes : List Nat) : Nat → Nat → Nat
  | _, 0 => 0
  | i0, k + 1 => (if allocAt prev bytes i0 then 1 else 0) + allocCnt prev bytes (i0 + 1) k

/-- The value of `next_tracking_id` after processing slots
`i0, ..., i0+k-1` starting from `nid`. -/
def nidAfter (prev : Nat) (bytes : List Nat) : Nat → Nat → Nat → Nat
  | nid, _, 0 => nid
  | nid, i0, k + 1 =>
    nidAfter prev bytes (if allocAt prev bytes i0 then wrapSucc nid else nid) (i0 + 1) k

/-- The chain of `n` successive allocator values starting at `nid`. -/
def wrapChain : Nat → Nat → List Nat
  | _, 0 => []
  | nid, n + 1 => nid :: wrapChain (wrapSucc nid) n

/-- The effect of one event on the observer entry of a fixed slot. -/
def applyTracking (cur : Option Int) (e : TmEvent) : Option Int :=
  match e with
  | TmEvent.trackingId _ v => if v < 0 then none else some v
  | _ => cur

/-- The event-stream observer agrees, per slot, with `fd->prev_slots_used`. -/
def Coherent (cfg : TmInfo) (r : TmRun) : Prop :=
  r.obs.length = cfg.maxFingers ∧
  ∀ j, j < cfg.maxFingers →
    (r.obs.getD j none).isSome = Nat.testBit r.st.prevSlotsUsed j

/-- Tracking ids carried by the observer are positive, below the allocator
counter, and pairwise distinct among slots. -/
def IdsOk (r : TmRun) : Prop :=
  1 ≤ r.st.nextTrackingId ∧
  (∀ j v, r.obs.getD j none = some v →
    1 ≤ v ∧ v < (r.st.nextTrackingId : Int)) ∧
  (∀ i j v w, i ≠ j → r.obs.getD i none = some v → r.obs.getD j none = some w →
    v ≠ w)

/-! ### Concrete inputs used by counterexamples and witnesses -/

/-- A two-slot geometry with the identity origin. -/
def cexInfo : TmInfo := ⟨1000, 800, 0, ORIGIN_UPPER_LEFT, 2, 0⟩

/-- A payload whose two records are both non-sentinel touches. -/
def frameBoth : List Nat := [0, 0, 0, 0, 0, 0, 0, 0]

/-- A payload touching slot 0 and carrying the sentinel for slot 1. -/
def frameA : List Nat := [0, 0, 0, 0, 255, 255, 255, 255]

/-- Release slot 1 then touch it again (one allocator step per cycle). -/
def cycleStep (r : TmRun) : TmRun :=
  tmFrameStep cexInfo (tmFrameStep cexInfo r frameA) frameBoth

/-- A run with both slots touched throughout, slot 1 lifted and re-placed
65533 times: enough cycles to wrap the 16-bit allocator. -/
def c1Frames : List (List Nat) :=
  frameBoth :: List.flatten (List.replicate 65533 [frameA, frameBoth])

end LogitechTM

namespace LogitechWTP

/-- A wtp slot state with only slot 2 in active contact. -/
def c2State : WtpState := ⟨fun j => if j = 2 then ⟨true, false⟩ else ⟨false, false⟩⟩

/-- A decoded dual-touch frame part: `end_of_frame = 0`, `finger_count = 3`,
whose first sub-record addresses slot 2 with `contact_status = 0`. -/
def c2Raw : RawXY :=
  { timestamp := 0
    finger0 := ⟨0, 0, 10, 10, 0, 0, 3⟩
    finger1 := ⟨0, 0, 20, 20, 0, 0, 5⟩
    spuriousFlag := 0
    endOfFrame := 0
    fingerCount := 3 }

/-- All five slots empty. -/
def wtpEmptyState : WtpState := ⟨fun _ => ⟨false, false⟩⟩

/-- A dual-touch report whose first sub-record reports finger id 7 (slot 6)
in active contact, with a total finger count of 1. -/
def c5Report : DualTouchHidppRec :=
  ⟨0x11, 1, 0x0f, 0, 0,
   ⟨0, 0, 0xC0, 0, 0, 0, 0x70⟩,
   ⟨0, 0, 0, 0, 0, 0, 0x01⟩⟩

/-- A sub-record whose trailing id byte is `0x21`: low nibble 1, high nibble 2. -/
def c8Rec : TouchHidppRec := ⟨0, 0, 0, 0, 0, 0, 0x21⟩

end LogitechWTP

namespace LogitechTM

/-- A two-slot upper-left geometry used for the tool-bit evaluation. -/
def c4Info : TmInfo := ⟨1000, 800, 0, ORIGIN_UPPER_LEFT, 2, 0⟩

/-- Two simultaneous non-sentinel touches. -/
def c4Frame : List Nat := [0, 0, 0, 0, 0, 0, 0, 0]

end LogitechTM

/-! ## Theorems -/

namespace LogitechTM

/-- C7: for every decoded touch record and configured origin, the emitted x
coordinate is `x_size - raw_x` exactly when the origin is right-aligned
(lower-right or upper-right) and `raw_x` otherwise, and the emitted y
coordinate is `y_size - raw_y` exactly when the origin is bottom-aligned
(lower-left or lower-right) and `raw_y` otherwise; in particular a lower-right
origin flips both coordinates and an upper-left origin passes both through. -/
theorem c7_axis_flip (cfg : TmInfo) (prev i su nid : Nat) (r : TouchRec)
    (h : isSentinel r = false) :
    (∀ v : Int, TmEvent.posX i v ∈ (slotStep cfg prev i su nid r).2.2 ↔
        v = if swapX cfg then (cfg.xSize : Int) - rawX r else (rawX r : Int)) ∧
    (∀ v : Int, TmEvent.posY i v ∈ (slotStep cfg prev i su nid r).2.2 ↔
        v = if swapY cfg then (cfg.ySize : Int) - rawY r else (rawY r : Int)) ∧
    (swapX cfg = true ↔
      (cfg.originPosition = ORIGIN_LOWER_RIGHT ∨
       cfg.originPosition = ORIGIN_UPPER_RIGHT)) ∧
    (swapY cfg = true ↔
      (cfg.originPosition = ORIGIN_LOWER_LEFT ∨
       cfg.originPosition = ORIGIN_LOWER_RIGHT)) := by
  refine ⟨?_, ?_, ?_, ?_⟩
  · intro v
    by_cases hn : newTest prev i <;>
      simp [slotStep, h, hn]
  · intro v
    by_cases hn : newTest prev i <;>
      simp [slotStep, h, hn]
  · simp [swapX, ORIGIN_LOWER_RIGHT, ORIGIN_UPPER_RIGHT]
  · simp [swapY, ORIGIN_LOWER_LEFT, ORIGIN_LOWER_RIGHT]

/-- Witness for `c7_axis_flip` at a concrete lower-right-origin record. -/
theorem c7_axis_flip_witness :
    (∀ v : Int, TmEvent.posX 0 v ∈
        (slotStep ⟨1000, 800, 0, ORIGIN_LOWER_RIGHT, 2, 0⟩ 0 0 0 1 ⟨1, 2, 0x21, 0⟩).2.2 ↔
        v = if swapX ⟨1000, 800, 0, ORIGIN_LOWER_RIGHT, 2, 0⟩ then
              ((1000 : Nat) : Int) - rawX ⟨1, 2, 0x21, 0⟩ else (rawX ⟨1, 2, 0x21, 0⟩ : Int)) ∧
    (∀ v : Int, TmEvent.posY 0 v ∈
        (slotStep ⟨1000, 800, 0, ORIGIN_LOWER_RIGHT, 2, 0⟩ 0 0 0 1 ⟨1, 2, 0x21, 0⟩).2.2 ↔
        v = if swapY ⟨1000, 800, 0, ORIGIN_LOWER_RIGHT, 2, 0⟩ then
              ((800 : Nat) : Int) - rawY ⟨1, 2, 0x21, 0⟩ else (rawY ⟨1, 2, 0x21, 0⟩ : Int)) ∧
    (swapX ⟨1000, 800, 0, ORIGIN_LOWER_RIGHT, 2, 0⟩ = true ↔
      ((⟨1000, 800, 0, ORIGIN_LOWER_RIGHT, 2, 0⟩ : TmInfo).originPosition = ORIGIN_LOWER_RIGHT ∨
       (⟨1000, 800, 0, ORIGIN_LOWER_RIGHT, 2, 0⟩ : TmInfo).originPosition = ORIGIN_UPPER_RIGHT)) ∧
    (swapY ⟨1000, 800, 0, ORIGIN_LOWER_RIGHT, 2, 0⟩ = true ↔
      ((⟨1000, 800, 0, ORIGIN_LOWER_RIGHT, 2, 0⟩ : TmInfo).originPosition = ORIGIN_LOWER_LEFT ∨
       (⟨1000, 800, 0, ORIGIN_LOWER_RIGHT, 2, 0⟩ : TmInfo).originPosition = ORIGIN_LOWER_RIGHT)) :=
  c7_axis_flip ⟨1000, 800, 0, ORIGIN_LOWER_RIGHT, 2, 0⟩ 0 0 0 1 ⟨1, 2, 0x21, 0⟩ (by decide)

/-- The left depressor after `emit_buttons`: only the mouse branch and the
raw-points branch touch it. -/
theorem emitButtons_left_eq (cfg : BtnCfg) (s : BtnState) (bytes : List Nat) :
    (emitButtons cfg s bytes).1.left =
      (if bgetD bytes 0 = 0x11 ∧ bgetD bytes 2 = cfg.mtFeatureIndex ∧
            bgetD bytes 3 >>> 4 = 1 then
         depUpdate (if bgetD bytes 0 = 2 ∧ ¬cfg.ignoreMouseReportButtons then
             depUpdate s.left Depressor.mouse (bgetD bytes 1 &&& 1 != 0) else s.left)
           Depressor.rawPoints (bgetD bytes 4 &&& 2 != 0)
       else if bgetD bytes 0 = 2 ∧ ¬cfg.ignoreMouseReportButtons then
         depUpdate s.left Depressor.mouse (bgetD bytes 1 &&& 1 != 0)
       else s.left) := by
  simp only [emitButtons]
  split_ifs <;> rfl

/-- The right depressor after `emit_buttons`: only the mouse branch touches it. -/
theorem emitButtons_right_eq (cfg : BtnCfg) (s : BtnState) (bytes : List Nat) :
    (emitButtons cfg s bytes).1.right =
      (if bgetD bytes 0 = 2 ∧ ¬cfg.ignoreMouseReportButtons then
         depUpdate s.right Depressor.mouse (bgetD bytes 1 &&& 2 != 0)
       else s.right) := by
  simp only [emitButtons]
  split_ifs <;> rfl

/-- The middle depressor after `emit_buttons`: only the mouse branch and the
`0x1b03` branch touch it. -/
theorem emitButtons_middle_eq (cfg : BtnCfg) (s : BtnState) (bytes : List Nat) :
    (emitButtons cfg s bytes).1.middle =
      (if bgetD bytes 0 = 0x11 ∧ bgetD bytes 2 = cfg.feature1b03 then
         depUpdate (if bgetD bytes 0 = 2 ∧ ¬cfg.ignoreMouseReportButtons then
             depUpdate s.middle Depressor.mouse (bgetD bytes 1 &&& 4 != 0) else s.middle)
           Depressor.aux1b03 (bgetD bytes 5 != 0)
       else if bgetD bytes 0 = 2 ∧ ¬cfg.ignoreMouseReportButtons then
         depUpdate s.middle Depressor.mouse (bgetD bytes 1 &&& 4 != 0)
       else s.middle) := by
  simp only [emitButtons]
  split_ifs <;> rfl

/-- The three C3 clauses hold for one enabled `depUpdate` branch, provided the
observation map `rb` reports exactly that branch. -/
theorem clauses_of_step (cur : Option Depressor) (k : Depressor) (d : Bool)
    (rb : Depressor → Option Bool)
    (hk : rb k = some d) (hother : ∀ a, a ≠ k → rb a = none) :
    (∀ a, cur = some a → depUpdate cur k d = some a ∨
      (depUpdate cur k d = none ∧ rb a = some false)) ∧
    (∀ k2, cur = none → depUpdate cur k d = some k2 → rb k2 = some true) ∧
    (∀ a, cur = some a → rb a = none → depUpdate cur k d = some a) := by
  refine ⟨?_, ?_, ?_⟩
  · intro a ha
    subst ha
    by_cases hak : a = k
    · subst hak
      by_cases hd : d = true
      · left
        simp [depUpdate, hd]
      · right
        have hd' : d = false := by simpa using hd
        subst hd'
        exact ⟨by simp [depUpdate], by rw [hk]⟩
    · left
      simp [depUpdate, hak]
  · intro k2 hc hu
    subst hc
    by_cases hd : d = true
    · have : depUpdate none k d = some k := by simp [depUpdate, hd]
      rw [this] at hu
      rw [Option.some_inj] at hu
      subst hu
      rw [hk, hd]
    · have hd' : d = false := by simpa using hd
      subst hd'
      have : depUpdate none k false = none := by simp [depUpdate]
      rw [this] at hu
      exact Option.noConfusion hu
  · intro a ha hn
    have hak : a ≠ k := fun h => by rw [h, hk] at hn; exact Option.noConfusion hn
    subst ha
    simp [depUpdate, hak]

/-- The three C3 clauses hold when no branch touches the button. -/
theorem clauses_of_skip (cur : Option Depressor) (rb : Depressor → Option Bool) :
    (∀ a, cur = some a → cur = some a ∨ (cur = none ∧ rb a = some false)) ∧
    (∀ k2, cur = none → cur = some k2 → rb k2 = some true) ∧
    (∀ a, cur = some a → rb a = none → cur = some a) := by
  refine ⟨fun a ha => Or.inl ha, fun k2 hc hu => ?_, fun a ha _ => ha⟩
  rw [hc] at hu
  exact Option.noConfusion hu

/-- C3: for each button, a report kind sets the button's depressor to itself
only when the depressor is currently `none` and the report observes "down";
a report kind clears the depressor only when it currently equals that same
kind and the report observes "up"; and a report carrying no observation from
the owning kind leaves an assigned depressor unchanged (so a "down" from a
different source is a no-op and only the owner's "up" clears the button). -/
theorem c3_button_depressor (cfg : BtnCfg) (s : BtnState) (bytes : List Nat) (b : Fin 3) :
    (∀ a, selButton s b = some a →
      selButton (emitButtons cfg s bytes).1 b = some a ∨
      (selButton (emitButtons cfg s bytes).1 b = none ∧
        reportsButton cfg bytes b a = some false)) ∧
    (∀ k, selButton s b = none → selButton (emitButtons cfg s bytes).1 b = some k →
      reportsButton cfg bytes b k = some true) ∧
    (∀ a, selButton s b = some a → reportsButton cfg bytes b a = none →
      selButton (emitButtons cfg s bytes).1 b = some a) := by
  fin_cases b
  · -- left button
    by_cases h3 : bgetD bytes 0 = 0x11 ∧ bgetD bytes 2 = cfg.mtFeatureIndex ∧
        bgetD bytes 3 >>> 4 = 1
    · have h1 : ¬ (bgetD bytes 0 = 2 ∧ ¬cfg.ignoreMouseReportButtons) := by
        rintro ⟨h, -⟩
        rw [h] at h3
        omega
      have heq : (emitButtons cfg s bytes).1.left =
          depUpdate s.left Depressor.rawPoints (bgetD bytes 4 &&& 2 != 0) := by
        rw [emitButtons_left_eq, if_pos h3, if_neg h1]
      simp only [selButton, heq]
      refine clauses_of_step s.left Depressor.rawPoints _ _ ?_ ?_
      · simp only [reportsButton]
        rw [if_pos (⟨by norm_num, h3.1, h3.2.1, h3.2.2⟩)]
      · intro a hak
        cases a with
        | mouse => simp only [reportsButton]; rw [if_neg h1]
        | rawPoints => exact absurd rfl hak
        | aux1b03 => simp only [reportsButton]; rw [if_neg (by simp)]
    · by_cases h1 : bgetD bytes 0 = 2 ∧ ¬cfg.ignoreMouseReportButtons
      · have heq : (emitButtons cfg s bytes).1.left =
            depUpdate s.left Depressor.mouse (bgetD bytes 1 &&& 1 != 0) := by
          rw [emitButtons_left_eq, if_neg h3, if_pos h1]
        simp only [selButton, heq]
        refine clauses_of_step s.left Depressor.mouse _ _ ?_ ?_
        · simp only [reportsButton]
          rw [if_pos h1]
          norm_num [Nat.shiftLeft_eq]
        · intro a hak
          cases a with
          | mouse => exact absurd rfl hak
          | rawPoints => simp only [reportsButton]; rw [if_neg (fun hc => h3 ⟨hc.2.1, hc.2.2⟩)]
          | aux1b03 => simp only [reportsButton]; rw [if_neg (by simp)]
      · have heq : (emitButtons cfg s bytes).1.left = s.left := by
          rw [emitButtons_left_eq, if_neg h3, if_neg h1]
        simp only [selButton, heq]
        have hrb : ∀ a, reportsButton cfg bytes 0 a = none := by
          intro a
          cases a with
          | mouse => simp only [reportsButton]; rw [if_neg h1]
          | rawPoints => simp only [reportsButton]; rw [if_neg (fun hc => h3 ⟨hc.2.1, hc.2.2⟩)]
          | aux1b03 => simp only [reportsButton]; rw [if_neg (by simp)]
        have h := clauses_of_skip s.left (reportsButton cfg bytes 0)
        exact ⟨h.1, h.2.1, h.2.2⟩
  · -- right button
    by_cases h1 : bgetD bytes 0 = 2 ∧ ¬cfg.ignoreMouseReportButtons
    · have heq : (emitButtons cfg s bytes).1.right =
          depUpdate s.right Depressor.mouse (bgetD bytes 1 &&& 2 != 0) := by
        rw [emitButtons_right_eq, if_pos h1]
      simp only [selButton, heq]
      refine clauses_of_step s.right Depressor.mouse _ _ ?_ ?_
      · simp only [reportsButton]
        rw [if_pos h1]
        norm_num [Nat.shiftLeft_eq]
      · intro a hak
        cases a with
        | mouse => exact absurd rfl hak
        | rawPoints => simp only [reportsButton]; rw [if_neg (by simp)]
        | aux1b03 => simp only [reportsButton]; rw [if_neg (by simp)]
    · have heq : (emitButtons cfg s bytes).1.right = s.right := by
        rw [emitButtons_right_eq, if_neg h1]
      simp only [selButton, heq]
      have h := clauses_of_skip s.right (reportsButton cfg bytes 1)
      refine ⟨?_, h.2.1, h.2.2⟩
      intro a ha
      exact Or.inl ha
  · -- middle button
    by_cases h2 : bgetD bytes 0 = 0x11 ∧ bgetD bytes 2 = cfg.feature1b03
    · have h1 : ¬ (bgetD bytes 0 = 2 ∧ ¬cfg.ignoreMouseReportButtons) := by
        rintro ⟨h, -⟩
        rw [h] at h2
        omega
      have heq : (emitButtons cfg s bytes).1.middle =
          depUpdate s.middle Depressor.aux1b03 (bgetD bytes 5 != 0) := by
        rw [emitButtons_middle_eq, if_pos h2, if_neg h1]
      simp only [selButton, heq]
      refine clauses_of_step s.middle Depressor.aux1b03 _ _ ?_ ?_
      · simp only [reportsButton]
        rw [if_pos (⟨by norm_num, h2.1, h2.2⟩)]
      · intro a hak
        cases a with
        | mouse => simp only [reportsButton]; rw [if_neg h1]
        | rawPoints => simp only [reportsButton]; rw [if_neg (by simp)]
        | aux1b03 => exact absurd rfl hak
    · by_cases h1 : bgetD bytes 0 = 2 ∧ ¬cfg.ignoreMouseReportButtons
      · have heq : (emitButtons cfg s bytes).1.middle =
            depUpdate s.middle Depressor.mouse (bgetD bytes 1 &&& 4 != 0) := by
          rw [emitButtons_middle_eq, if_neg h2, if_pos h1]
        simp only [selButton, heq]
        refine clauses_of_step s.middle Depressor.mouse _ _ ?_ ?_
        · simp only [reportsButton]
          rw [if_pos h1]
          norm_num [Nat.shiftLeft_eq]
        · intro a hak
          cases a with
          | mouse => exact absurd rfl hak
          | rawPoints => simp only [reportsButton]; rw [if_neg (by simp)]
          | aux1b03 => simp only [reportsButton]; rw [if_neg (fun hc => h2 ⟨hc.2.1, hc.2.2⟩)]
      · have heq : (emitButtons cfg s bytes).1.middle = s.middle := by
          rw [emitButtons_middle_eq, if_neg h2, if_neg h1]
        simp only [selButton, heq]
        have h := clauses_of_skip s.middle (reportsButton cfg bytes 2)
        exact ⟨h.1, h.2.1, h.2.2⟩

/-- Witness for `c3_button_depressor`: a raw-points report observing the left
button "down" applied to a state where the mouse report already holds the left
button. -/
theorem c3_button_depressor_witness :
    ((∀ a, selButton ⟨some Depressor.mouse, none, none⟩ 0 = some a →
      selButton (emitButtons ⟨false, 0x1a, 0x1b⟩
          ⟨some Depressor.mouse, none, none⟩ [0x11, 0, 0x1a, 0x10, 2, 0]).1 0 = some a ∨
      (selButton (emitButtons ⟨false, 0x1a, 0x1b⟩
          ⟨some Depressor.mouse, none, none⟩ [0x11, 0, 0x1a, 0x10, 2, 0]).1 0 = none ∧
        reportsButton ⟨false, 0x1a, 0x1b⟩ [0x11, 0, 0x1a, 0x10, 2, 0] 0 a = some false)) ∧
    (∀ k, selButton ⟨some Depressor.mouse, none, none⟩ 0 = none →
      selButton (emitButtons ⟨false, 0x1a, 0x1b⟩
          ⟨some Depressor.mouse, none, none⟩ [0x11, 0, 0x1a, 0x10, 2, 0]).1 0 = some k →
      reportsButton ⟨false, 0x1a, 0x1b⟩ [0x11, 0, 0x1a, 0x10, 2, 0] 0 k = some true) ∧
    (∀ a, selButton ⟨some Depressor.mouse, none, none⟩ 0 = some a →
      reportsButton ⟨false, 0x1a, 0x1b⟩ [0x11, 0, 0x1a, 0x10, 2, 0] 0 a = none →
      selButton (emitButtons ⟨false, 0x1a, 0x1b⟩
          ⟨some Depressor.mouse, none, none⟩ [0x11, 0, 0x1a, 0x10, 2, 0]).1 0 = some a)) :=
  c3_button_depressor ⟨false, 0x1a, 0x1b⟩ ⟨some Depressor.mouse, none, none⟩
    [0x11, 0, 0x1a, 0x10, 2, 0] 0

/-- C4 (code evaluation at the failing input): with two simultaneously active
slots (slots 0 and 1), `emit_fingers` emits `BTN_TOOL_DOUBLETAP = false` and
`BTN_TOOL_TRIPLETAP = true`, because `slots_used` is a bit mask (here 3) yet it
is compared against the finger counts 1..4. -/
theorem c4_tool_bits_failing_input :
    (emitFingers c4Info tmInitState c4Frame).1.prevSlotsUsed = 3 ∧
    Nat.testBit (emitFingers c4Info tmInitState c4Frame).1.prevSlotsUsed 0 = true ∧
    Nat.testBit (emitFingers c4Info tmInitState c4Frame).1.prevSlotsUsed 1 = true ∧
    TmEvent.toolDouble false ∈ (emitFingers c4Info tmInitState c4Frame).2 ∧
    TmEvent.toolTriple true ∈ (emitFingers c4Info tmInitState c4Frame).2 := by
  decide

end LogitechTM

namespace LogitechWTP

/-- C8 (counterexample): the decoder takes the finger identifier from the HIGH
nibble of the trailing id byte, not the low nibble: on id byte `0x21` it
yields finger id 2, while the claimed low 4 bits give 1. -/
theorem c8_low_nibble_counterexample :
    (decodeTouch c8Rec).fingerId = 2 ∧ c8Rec.id % 16 = 1 ∧ (2 : Nat) ≠ 1 := by
  decide

/-- C8 (amended): decoding extracts end-of-frame from bit 0 of the first
sub-record's id byte, the spurious flag from bit 1 of that byte, the frame's
finger count from the low nibble of the second sub-record's id byte, and each
sub-record's finger identifier from the HIGH 4 bits (`id >> 4`) of its
trailing id byte. -/
theorem c8_header_decode (rep : DualTouchHidppRec) (t : TouchHidppRec) :
    (decodeDualTouch rep).endOfFrame = rep.t0.id % 2 ∧
    (decodeDualTouch rep).spuriousFlag = rep.t0.id / 2 % 2 ∧
    (decodeDualTouch rep).fingerCount = rep.t1.id % 16 ∧
    (decodeTouch t).fingerId = t.id / 16 := by
  refine ⟨?_, ?_, ?_, ?_⟩
  · simp [decodeDualTouch, Nat.and_one_is_mod]
  · have h1 : rep.t0.id >>> 1 = rep.t0.id / 2 := by
      rw [Nat.shiftRight_eq_div_pow, pow_one]
    simp [decodeDualTouch, h1, Nat.and_one_is_mod]
  · have h1 : rep.t1.id &&& 15 = rep.t1.id % 16 := by
      simpa using Nat.and_pow_two_sub_one_eq_mod rep.t1.id 4
    simp [decodeDualTouch, h1]
  · have h1 : t.id >>> 4 = t.id / 16 := by
      rw [Nat.shiftRight_eq_div_pow]
    simp [decodeTouch, h1]

/-- C5 (code evaluation at the failing input): a report with finger id 7 makes
`wtp_touch_event` compute slot index 6 and write `fd->slots[6]`, although the
slot array has `wtpSlotCount = 5` entries; nothing clamps or ignores the
index. -/
theorem c5_out_of_bounds_failing_input :
    wtpSlotIndex ((decodeDualTouch c5Report).finger0) = 6 ∧
    ¬ ((6 : Int) < (wtpSlotCount : Int)) ∧
    ((hidppTouchpadRawXYEvent wtpEmptyState c5Report).1.slots 6).seenInThisFrame = true ∧
    ((hidppTouchpadRawXYEvent wtpEmptyState c5Report).1.slots 6).touchState = true ∧
    (wtpEmptyState.slots 6).seenInThisFrame = false := by
  decide

/-- C2 (counterexample): a report with `end_of_frame = 0` and
`finger_count = 3` does retire a previously active slot when one of its
decoded sub-records carries `contact_status = 0`: slot 2 was active, the
report clears its contact and emits a "no contact" slot event. -/
theorem c2_nonboundary_retire_counterexample :
    c2Raw.endOfFrame = 0 ∧ c2Raw.fingerCount = 3 ∧
    (c2State.slots 2).touchState = true ∧
    ((wtpRawXYEvent c2State c2Raw).1.slots 2).touchState = false ∧
    WtpEvent.slotState 2 false ∈ (wtpRawXYEvent c2State c2Raw).2 := by
  decide

/-- A slot not addressed by any applied sub-record is never modified by the
touch-event phase. -/
theorem wtpApplyList_changed (fs : List RawXYFinger) (st : WtpState) (j : Int)
    (h : (wtpApplyList st fs).1.slots j ≠ st.slots j) :
    ∃ f ∈ fs, wtpSlotIndex f = j := by
  induction fs generalizing st with
  | nil => simp [wtpApplyList] at h
  | cons f fs ih =>
    by_cases hj : wtpSlotIndex f = j
    · exact ⟨f, List.mem_cons_self f fs, hj⟩
    · have hst : (wtpTouchEvent st f).1.slots j = st.slots j := by
        simp only [wtpTouchEvent]
        exact if_neg (fun hc => hj hc.symm)
      have h2 : (wtpApplyList (wtpTouchEvent st f).1 fs).1.slots j ≠
          (wtpTouchEvent st f).1.slots j := by
        simpa [wtpApplyList, hst] using h
      obtain ⟨g, hg, hgj⟩ := ih _ h2
      exact ⟨g, List.mem_cons_of_mem f hg, hgj⟩

/-- If the touch-event phase turns an active slot inactive, some applied
sub-record addressed that slot with `contact_status = 0`. -/
theorem wtpApplyList_retire (fs : List RawXYFinger) (st : WtpState) (j : Int)
    (h0 : (st.slots j).touchState = true)
    (h1 : ((wtpApplyList st fs).1.slots j).touchState = false) :
    ∃ f ∈ fs, wtpSlotIndex f = j ∧ f.contactStatus = 0 := by
  induction fs generalizing st with
  | nil =>
    simp only [wtpApplyList] at h1
    rw [h1] at h0
    exact absurd h0 (by simp)
  | cons f fs ih =>
    rcases hmid : (((wtpTouchEvent st f).1.slots j).touchState) with _ | _
    · by_cases hj : wtpSlotIndex f = j
      · refine ⟨f, List.mem_cons_self f fs, hj, ?_⟩
        have : ((wtpTouchEvent st f).1.slots j) = ⟨f.contactStatus != 0, true⟩ := by
          simp only [wtpTouchEvent]
          exact if_pos hj.symm
        rw [this] at hmid
        simpa using hmid
      · have hst : (wtpTouchEvent st f).1.slots j = st.slots j := by
          simp only [wtpTouchEvent]
          exact if_neg (fun hc => hj hc.symm)
        rw [hst] at hmid
        rw [hmid] at h0
        exact absurd h0 (by simp)
    · have h1' : ((wtpApplyList (wtpTouchEvent st f).1 fs).1.slots j).touchState = false := by
        simpa [wtpApplyList] using h1
      obtain ⟨g, hg, hgj, hgs⟩ := ih _ hmid h1'
      exact ⟨g, List.mem_cons_of_mem f hg, hgj, hgs⟩

/-- C2 (amended): a report with `end_of_frame` false and `finger_count ≥ 3`
retires no previously active slot other than a slot explicitly addressed by a
processed sub-record with `contact_status = 0`; a report at a frame boundary
(`end_of_frame` set or `finger_count ≤ 2`) clears every slot's
`seen_in_this_frame` flag, leaves a slot active exactly when it was active and
seen after the report's own sub-record updates, and emits a "no contact" event
for every slot still active but not seen. -/
theorem c2_frame_boundary (st : WtpState) (raw : RawXY) :
    (raw.endOfFrame = 0 → 3 ≤ raw.fingerCount →
      ∀ j : Int, (st.slots j).touchState = true →
        ((wtpRawXYEvent st raw).1.slots j).touchState = false →
        ∃ f ∈ appliedFingers raw, wtpSlotIndex f = j ∧ f.contactStatus = 0) ∧
    ((raw.endOfFrame ≠ 0 ∨ raw.fingerCount ≤ 2) →
      ∀ j ∈ sweepIndices,
        ((wtpRawXYEvent st raw).1.slots j).seenInThisFrame = false ∧
        ((wtpRawXYEvent st raw).1.slots j).touchState =
          (((wtpTouchPhase st raw).1.slots j).touchState &&
           ((wtpTouchPhase st raw).1.slots j).seenInThisFrame) ∧
        (((wtpTouchPhase st raw).1.slots j).touchState = true →
          ((wtpTouchPhase st raw).1.slots j).seenInThisFrame = false →
          WtpEvent.slotState j false ∈ (wtpRawXYEvent st raw).2)) := by
  constructor
  · intro heof hfc j h0 h1
    have hnb : ¬ (raw.endOfFrame ≠ 0 ∨ raw.fingerCount ≤ 2) := by
      simp [heof]; omega
    have hout : (wtpRawXYEvent st raw).1 = (wtpTouchPhase st raw).1 := by
      simp only [wtpRawXYEvent]
      rw [if_neg hnb]
    rw [hout] at h1
    exact wtpApplyList_retire _ _ _ h0 h1
  · intro hb j hj
    have hout : (wtpRawXYEvent st raw).1 = (wtpSweep (wtpTouchPhase st raw).1).1 := by
      simp only [wtpRawXYEvent]
      rw [if_pos hb]
    have hslot : (wtpSweep (wtpTouchPhase st raw).1).1.slots j =
        sweepSlot ((wtpTouchPhase st raw).1.slots j) := by
      simp only [wtpSweep]
      exact if_pos hj
    refine ⟨?_, ?_, ?_⟩
    · rw [hout, hslot]; rfl
    · rw [hout, hslot]; rfl
    · intro ht hs
      have hmem : WtpEvent.slotState j false ∈ (wtpSweep (wtpTouchPhase st raw).1).2 := by
        simp only [wtpSweep]
        refine List.mem_flatten.mpr ⟨[WtpEvent.mtSlot j, WtpEvent.slotState j false], ?_, by simp⟩
        refine List.mem_map.mpr ⟨j, hj, ?_⟩
        rw [ht, hs]
        simp
      simp only [wtpRawXYEvent]
      rw [if_pos hb]
      simp only [List.mem_append]
      exact Or.inl (Or.inr hmem)

/-- Witness for `c2_frame_boundary` at a concrete boundary report. -/
theorem c2_frame_boundary_witness :
    ((c2Raw.endOfFrame = 0 → 3 ≤ c2Raw.fingerCount →
      ∀ j : Int, (c2State.slots j).touchState = true →
        ((wtpRawXYEvent c2State c2Raw).1.slots j).touchState = false →
        ∃ f ∈ appliedFingers c2Raw, wtpSlotIndex f = j ∧ f.contactStatus = 0) ∧
    ((c2Raw.endOfFrame ≠ 0 ∨ c2Raw.fingerCount ≤ 2) →
      ∀ j ∈ sweepIndices,
        ((wtpRawXYEvent c2State c2Raw).1.slots j).seenInThisFrame = false ∧
        ((wtpRawXYEvent c2State c2Raw).1.slots j).touchState =
          (((wtpTouchPhase c2State c2Raw).1.slots j).touchState &&
           ((wtpTouchPhase c2State c2Raw).1.slots j).seenInThisFrame) ∧
        (((wtpTouchPhase c2State c2Raw).1.slots j).touchState = true →
          ((wtpTouchPhase c2State c2Raw).1.slots j).seenInThisFrame = false →
          WtpEvent.slotState j false ∈ (wtpRawXYEvent c2State c2Raw).2))) :=
  c2_frame_boundary c2State c2Raw

/-- C10: the second sub-record of a dual-touch report is applied to its slot
exactly when `end_of_frame` is clear and the finger count is at least 2, or
`end_of_frame` is set and the finger count is 4; with `end_of_frame` set and a
finger count of 2 or 3 only the first sub-record is applied, so only its slot
can change. -/
theorem c10_second_subrecord (rep : DualTouchHidppRec) :
    ((appliedFingers (decodeDualTouch rep)).length = 2 ↔
      ((decodeDualTouch rep).fingerCount ≠ 0 ∧
        (((decodeDualTouch rep).endOfFrame = 0 ∧ 2 ≤ (decodeDualTouch rep).fingerCount) ∨
         ((decodeDualTouch rep).endOfFrame ≠ 0 ∧ (decodeDualTouch rep).fingerCount = 4)))) ∧
    ((decodeDualTouch rep).endOfFrame ≠ 0 →
      ((decodeDualTouch rep).fingerCount = 2 ∨ (decodeDualTouch rep).fingerCount = 3) →
      appliedFingers (decodeDualTouch rep) = [(decodeDualTouch rep).finger0]) ∧
    (∀ st : WtpState, ∀ j : Int,
      (wtpTouchPhase st (decodeDualTouch rep)).1.slots j ≠ st.slots j →
      ∃ f ∈ appliedFingers (decodeDualTouch rep), wtpSlotIndex f = j) := by
  refine ⟨?_, ?_, ?_⟩
  · unfold appliedFingers
    split_ifs with h1 h2
    · simp [h1]
    · simp only [List.length_cons, List.length_nil]
      constructor
      · intro _
        exact ⟨h1, by tauto⟩
      · intro _
        trivial
    · simp only [List.length_cons, List.length_nil]
      constructor
      · omega
      · intro ⟨hfc, hc⟩
        exact absurd (by tauto) h2
  · intro heof hfc
    unfold appliedFingers
    rw [if_neg (by omega), if_neg (by omega)]
  · intro st j h
    exact wtpApplyList_changed _ _ _ h

/-- Witness for `c10_second_subrecord` at a concrete report. -/
theorem c10_second_subrecord_witness :
    (((appliedFingers (decodeDualTouch c5Report)).length = 2 ↔
      ((decodeDualTouch c5Report).fingerCount ≠ 0 ∧
        (((decodeDualTouch c5Report).endOfFrame = 0 ∧
           2 ≤ (decodeDualTouch c5Report).fingerCount) ∨
         ((decodeDualTouch c5Report).endOfFrame ≠ 0 ∧
           (decodeDualTouch c5Report).fingerCount = 4)))) ∧
    ((decodeDualTouch c5Report).endOfFrame ≠ 0 →
      ((decodeDualTouch c5Report).fingerCount = 2 ∨
        (decodeDualTouch c5Report).fingerCount = 3) →
      appliedFingers (decodeDualTouch c5Report) = [(decodeDualTouch c5Report).finger0]) ∧
    (∀ st : WtpState, ∀ j : Int,
      (wtpTouchPhase st (decodeDualTouch c5Report)).1.slots j ≠ st.slots j →
      ∃ f ∈ appliedFingers (decodeDualTouch c5Report), wtpSlotIndex f = j)) :=
  c10_second_subrecord c5Report

end LogitechWTP

namespace LogitechTM

/-! ### Structure lemmas for `emit_fingers` -/

/-- For `i < 8` the truncated slot mask is the `i`-th power of two. -/
theorem slotMask_eq_pow (i : Nat) (h : i < 8) : slotMask i = 2 ^ i := by
  rw [slotMask, Nat.shiftLeft_eq, one_mul]
  exact Nat.mod_eq_of_lt (Nat.pow_lt_pow_right (by norm_num) h)

/-- For `i ≥ 8` the truncated slot mask vanishes. -/
theorem slotMask_eq_zero (i : Nat) (h : 8 ≤ i) : slotMask i = 0 := by
  rw [slotMask, Nat.shiftLeft_eq, one_mul]
  have hdvd : (256 : Nat) ∣ 2 ^ i := by
    have := pow_dvd_pow 2 h
    simpa using this
  exact Nat.dvd_iff_mod_eq_zero.mp hdvd

/-- Bit content of the slot mask. -/
theorem slotMask_testBit (i j : Nat) :
    Nat.testBit (slotMask i) j = decide (j = i ∧ i < 8) := by
  by_cases hi : i < 8
  · rw [slotMask_eq_pow i hi]
    by_cases hj : j = i
    · subst hj
      simp [Nat.testBit_two_pow_self, hi]
    · rw [Nat.testBit_two_pow_of_ne (fun hc => hj hc.symm)]
      simp [hj]
  · rw [slotMask_eq_zero i (le_of_not_lt hi)]
    simp [Nat.zero_testBit, hi]

/-- For `i < 8` the new-finger test is the negated previous-mask bit. -/
theorem newTest_eq (prev i : Nat) (h : i < 8) :
    newTest prev i = !Nat.testBit prev i := by
  rw [newTest, slotMask_eq_pow i h, Nat.and_two_pow]
  cases htb : Nat.testBit prev i <;> simp [htb, Nat.pos_iff_ne_zero]

/-- `slots_used` after one loop iteration. -/
theorem slotStep_su (cfg : TmInfo) (prev i su nid : Nat) (r : TouchRec) :
    (slotStep cfg prev i su nid r).1 = if isSentinel r then su else su ||| slotMask i := by
  by_cases hs : isSentinel r <;> by_cases hn : newTest prev i <;> simp [slotStep, hs, hn]

/-- `next_tracking_id` after one loop iteration. -/
theorem slotStep_nid (cfg : TmInfo) (prev i su nid : Nat) (r : TouchRec) :
    (slotStep cfg prev i su nid r).2.1 =
      if !isSentinel r && newTest prev i then wrapSucc nid else nid := by
  by_cases hs : isSentinel r <;> by_cases hn : newTest prev i <;> simp [slotStep, hs, hn]

/-- The tracking events of one loop iteration, per slot. -/
theorem slotStep_filter (cfg : TmInfo) (prev i su nid : Nat) (r : TouchRec) (j : Nat) :
    List.filter (trackingFor j) (slotStep cfg prev i su nid r).2.2 =
      (if j = i then
        (if isSentinel r then [TmEvent.trackingId i (-1)]
         else if newTest prev i then [TmEvent.trackingId i (Int.ofNat nid)] else [])
       else []) := by
  by_cases hj : j = i
  · by_cases hs : isSentinel r <;> by_cases hn : newTest prev i <;>
      simp [slotStep, hs, hn, hj, trackingFor]
  · have hij : ¬ i = j := fun hc => hj hc.symm
    by_cases hs : isSentinel r <;> by_cases hn : newTest prev i <;>
      simp [slotStep, hs, hn, hj, hij, trackingFor]

/-- The allocation values of one loop iteration. -/
theorem slotStep_allocs (cfg : TmInfo) (prev i su nid : Nat) (r : TouchRec) :
    allocsOfEvents (slotStep cfg prev i su nid r).2.2 =
      (if !isSentinel r && newTest prev i then [nid] else []) := by
  have hnn : ¬ ((Int.ofNat nid) < 0) := by
    rw [Int.ofNat_eq_natCast]
    omega
  by_cases hs : isSentinel r <;> by_cases hn : newTest prev i <;>
    simp [slotStep, hs, hn, allocsOfEvents, hnn]

/-- The final `next_tracking_id` of the loop. -/
theorem emitGo_nid (cfg : TmInfo) (prev : Nat) (bytes : List Nat) :
    ∀ (count i0 su nid : Nat),
      (emitGo cfg prev bytes count i0 su nid).2.1 = nidAfter prev bytes nid i0 count := by
  intro count
  induction count with
  | zero => intro i0 su nid; rfl
  | succ n ih =>
    intro i0 su nid
    have h1 : (emitGo cfg prev bytes (n + 1) i0 su nid).2.1 =
        (emitGo cfg prev bytes n (i0 + 1)
          (slotStep cfg prev i0 su nid (recAt bytes i0)).1
          (slotStep cfg prev i0 su nid (recAt bytes i0)).2.1).2.1 := rfl
    rw [h1, ih, slotStep_nid]
    rfl

/-- Bit content of the final `slots_used` of the loop. -/
theorem emitGo_su (cfg : TmInfo) (prev : Nat) (bytes : List Nat) :
    ∀ (count i0 su nid j : Nat),
      Nat.testBit (emitGo cfg prev bytes count i0 su nid).1 j =
        (Nat.testBit su j ||
          decide (i0 ≤ j ∧ j < i0 + count ∧ j < 8 ∧ isSentinel (recAt bytes j) = false)) := by
  intro count
  induction count with
  | zero =>
    intro i0 su nid j
    have hw : ¬(i0 ≤ j ∧ j < i0 + 0 ∧ j < 8 ∧ isSentinel (recAt bytes j) = false) := by
      rintro ⟨ha, hb, -⟩
      omega
    show Nat.testBit su j = _
    rw [decide_eq_false hw, Bool.or_false]
  | succ n ih =>
    intro i0 su nid j
    have h1 : (emitGo cfg prev bytes (n + 1) i0 su nid).1 =
        (emitGo cfg prev bytes n (i0 + 1)
          (slotStep cfg prev i0 su nid (recAt bytes i0)).1
          (slotStep cfg prev i0 su nid (recAt bytes i0)).2.1).1 := rfl
    rw [h1, ih, slotStep_su]
    by_cases hs : isSentinel (recAt bytes i0)
    · rw [if_pos hs]
      by_cases hj : j = i0
      · have hw1 : ¬(i0 + 1 ≤ j ∧ j < i0 + 1 + n ∧ j < 8 ∧
            isSentinel (recAt bytes j) = false) := by
          rintro ⟨h, -⟩
          omega
        have hw2 : ¬(i0 ≤ j ∧ j < i0 + (n + 1) ∧ j < 8 ∧
            isSentinel (recAt bytes j) = false) := by
          rintro ⟨-, -, -, h⟩
          rw [hj, hs] at h
          exact Bool.noConfusion h
        rw [decide_eq_false hw1, decide_eq_false hw2]
      · congr 1
        rw [decide_eq_decide]
        constructor
        · rintro ⟨a1, a2, a3⟩
          exact ⟨by omega, by omega, a3⟩
        · rintro ⟨a1, a2, a3⟩
          exact ⟨by omega, by omega, a3⟩
    · rw [if_neg hs]
      rw [Nat.testBit_lor, slotMask_testBit]
      by_cases hj : j = i0
      · have hw1 : ¬(i0 + 1 ≤ j ∧ j < i0 + 1 + n ∧ j < 8 ∧
            isSentinel (recAt bytes j) = false) := by
          rintro ⟨h, -⟩
          omega
        have hsf : isSentinel (recAt bytes j) = false := by
          rw [hj]
          simpa using hs
        rw [decide_eq_false hw1, Bool.or_false]
        by_cases h8 : i0 < 8
        · have hd1 : decide (j = i0 ∧ i0 < 8) = true := by
            rw [decide_eq_true_eq]
            exact ⟨hj, h8⟩
          have hd2 : decide (i0 ≤ j ∧ j < i0 + (n + 1) ∧ j < 8 ∧
              isSentinel (recAt bytes j) = false) = true := by
            rw [decide_eq_true_eq]
            exact ⟨by omega, by omega, by omega, hsf⟩
          rw [hd1, hd2]
        · have hd1 : decide (j = i0 ∧ i0 < 8) = false := by
            rw [decide_eq_false_iff_not]
            rintro ⟨-, h⟩
            omega
          have hd2 : decide (i0 ≤ j ∧ j < i0 + (n + 1) ∧ j < 8 ∧
              isSentinel (recAt bytes j) = false) = false := by
            rw [decide_eq_false_iff_not]
            rintro ⟨-, -, h, -⟩
            omega
          rw [hd1, hd2, Bool.or_false]
      · have hm : decide (j = i0 ∧ i0 < 8) = false := by
          rw [decide_eq_false_iff_not]
          rintro ⟨h, -⟩
          exact hj h
        rw [hm, Bool.or_false]
        congr 1
        rw [decide_eq_decide]
        constructor
        · rintro ⟨a1, a2, a3⟩
          exact ⟨by omega, by omega, a3⟩
        · rintro ⟨a1, a2, a3⟩
          exact ⟨by omega, by omega, a3⟩

end LogitechTM

namespace LogitechTM

/-- The tracking events of the whole loop, per slot: slot `j` gets exactly one
"no contact" event if its record is the sentinel, exactly one assignment event
(carrying the allocator value reached at slot `j`) if it is a new finger, and
no tracking event at all otherwise. -/
theorem emitGo_filter (cfg : TmInfo) (prev : Nat) (bytes : List Nat) :
    ∀ (count i0 su nid : Nat) (j : Nat),
      List.filter (trackingFor j) (emitGo cfg prev bytes count i0 su nid).2.2 =
        (if i0 ≤ j ∧ j < i0 + count then
          (if isSentinel (recAt bytes j) then [TmEvent.trackingId j (-1)]
           else if newTest prev j then
             [TmEvent.trackingId j (Int.ofNat (nidAfter prev bytes nid i0 (j - i0)))]
           else [])
         else []) := by
  intro count
  induction count with
  | zero =>
    intro i0 su nid j
    have hw : ¬(i0 ≤ j ∧ j < i0 + 0) := by
      rintro ⟨h1, h2⟩
      omega
    rw [if_neg hw]
    rfl
  | succ n ih =>
    intro i0 su nid j
    have h1 : (emitGo cfg prev bytes (n + 1) i0 su nid).2.2 =
        (slotStep cfg prev i0 su nid (recAt bytes i0)).2.2 ++
        (emitGo cfg prev bytes n (i0 + 1)
          (slotStep cfg prev i0 su nid (recAt bytes i0)).1
          (slotStep cfg prev i0 su nid (recAt bytes i0)).2.1).2.2 := rfl
    rw [h1, List.filter_append, slotStep_filter, ih]
    by_cases hj : j = i0
    · have hw1 : ¬(i0 + 1 ≤ j ∧ j < i0 + 1 + n) := by
        rintro ⟨h, -⟩
        omega
      have hw2 : i0 ≤ j ∧ j < i0 + (n + 1) := ⟨by omega, by omega⟩
      rw [if_pos hj, if_neg hw1, if_pos hw2, List.append_nil]
      rw [hj, Nat.sub_self]
      rfl
    · rw [if_neg hj, List.nil_append, slotStep_nid]
      by_cases hw : i0 + 1 ≤ j ∧ j < i0 + 1 + n
      · have hw2 : i0 ≤ j ∧ j < i0 + (n + 1) := ⟨by omega, by omega⟩
        rw [if_pos hw, if_pos hw2]
        have hstep : nidAfter prev bytes
            (if !isSentinel (recAt bytes i0) && newTest prev i0 then wrapSucc nid else nid)
            (i0 + 1) (j - (i0 + 1)) = nidAfter prev bytes nid i0 (j - i0) := by
          have hk : j - i0 = (j - (i0 + 1)) + 1 := by omega
          rw [hk]
          rfl
        rw [hstep]
      · have hw2 : ¬(i0 ≤ j ∧ j < i0 + (n + 1)) := by
          rintro ⟨ha, hb⟩
          exact hw ⟨by omega, by omega⟩
        rw [if_neg hw, if_neg hw2]

/-- The allocation values of the whole loop form a `wrapSucc` chain. -/
theorem emitGo_allocs (cfg : TmInfo) (prev : Nat) (bytes : List Nat) :
    ∀ (count i0 su nid : Nat),
      allocsOfEvents (emitGo cfg prev bytes count i0 su nid).2.2 =
        wrapChain nid (allocCnt prev bytes i0 count) := by
  intro count
  induction count with
  | zero => intro i0 su nid; rfl
  | succ n ih =>
    intro i0 su nid
    have h1 : (emitGo cfg prev bytes (n + 1) i0 su nid).2.2 =
        (slotStep cfg prev i0 su nid (recAt bytes i0)).2.2 ++
        (emitGo cfg prev bytes n (i0 + 1)
          (slotStep cfg prev i0 su nid (recAt bytes i0)).1
          (slotStep cfg prev i0 su nid (recAt bytes i0)).2.1).2.2 := rfl
    have happ : ∀ (a b : List TmEvent),
        allocsOfEvents (a ++ b) = allocsOfEvents a ++ allocsOfEvents b := by
      intro a b
      simp [allocsOfEvents, List.filterMap_append]
    rw [h1, happ, slotStep_allocs, slotStep_nid, ih]
    have ha : allocCnt prev bytes i0 (n + 1) =
        (if allocAt prev bytes i0 then 1 else 0) + allocCnt prev bytes (i0 + 1) n := rfl
    rw [ha]
    by_cases hA : allocAt prev bytes i0
    · have hs : (!isSentinel (recAt bytes i0) && newTest prev i0) = true := hA
      rw [if_pos hs, if_pos hs, if_pos hA, Nat.add_comm 1]
      rfl
    · have hs : ¬ ((!isSentinel (recAt bytes i0) && newTest prev i0) = true) := hA
      rw [if_neg hs, if_neg hs, if_neg hA, List.nil_append, Nat.zero_add]

/-- The allocator advance of the loop is an iterate of `wrapSucc`. -/
theorem nidAfter_eq_iterate (prev : Nat) (bytes : List Nat) :
    ∀ (k i0 nid : Nat),
      nidAfter prev bytes nid i0 k = wrapSucc^[allocCnt prev bytes i0 k] nid := by
  intro k
  induction k with
  | zero => intro i0 nid; rfl
  | succ n ih =>
    intro i0 nid
    have h1 : nidAfter prev bytes nid i0 (n + 1) =
        nidAfter prev bytes (if allocAt prev bytes i0 then wrapSucc nid else nid)
          (i0 + 1) n := rfl
    have h2 : allocCnt prev bytes i0 (n + 1) =
        (if allocAt prev bytes i0 then 1 else 0) + allocCnt prev bytes (i0 + 1) n := rfl
    rw [h1, h2, ih]
    by_cases hA : allocAt prev bytes i0
    · rw [if_pos hA, if_pos hA]
      rw [Nat.add_comm 1, Function.iterate_succ_apply]
    · rw [if_neg hA, if_neg hA, Nat.zero_add]

/-- Splitting a slot range splits the allocation count. -/
theorem allocCnt_add (prev : Nat) (bytes : List Nat) :
    ∀ (a i0 b : Nat),
      allocCnt prev bytes i0 (a + b) =
        allocCnt prev bytes i0 a + allocCnt prev bytes (i0 + a) b := by
  intro a
  induction a with
  | zero =>
    intro i0 b
    rw [Nat.zero_add, Nat.add_zero]
    have h0 : allocCnt prev bytes i0 0 = 0 := rfl
    rw [h0, Nat.zero_add]
  | succ n ih =>
    intro i0 b
    have h1 : allocCnt prev bytes i0 (n + 1 + b) =
        (if allocAt prev bytes i0 then 1 else 0) + allocCnt prev bytes (i0 + 1) (n + b) := by
      have : n + 1 + b = (n + b) + 1 := by omega
      rw [this]
      rfl
    rw [h1, ih (i0 + 1) b]
    have h2 : allocCnt prev bytes i0 (n + 1) =
        (if allocAt prev bytes i0 then 1 else 0) + allocCnt prev bytes (i0 + 1) n := rfl
    rw [h2]
    have h3 : i0 + 1 + n = i0 + (n + 1) := by omega
    rw [h3]
    omega

/-- An allocating slot contributes to any count that starts at it. -/
theorem allocCnt_pos (prev : Nat) (bytes : List Nat) (i0 k : Nat)
    (hA : allocAt prev bytes i0 = true) (hk : 1 ≤ k) :
    1 ≤ allocCnt prev bytes i0 k := by
  cases k with
  | zero => omega
  | succ n =>
    have h2 : allocCnt prev bytes i0 (n + 1) =
        (if allocAt prev bytes i0 then 1 else 0) + allocCnt prev bytes (i0 + 1) n := rfl
    rw [h2, if_pos hA]
    omega

end LogitechTM

namespace LogitechTM

/-! ### Arithmetic of the allocator -/

/-- In-range counters step by one. -/
theorem wrapSucc_eq_add_one (n : Nat) (h : n + 1 ≤ 65534) : wrapSucc n = n + 1 := by
  unfold wrapSucc
  have hm : (n + 1) % 65536 = n + 1 := Nat.mod_eq_of_lt (by omega)
  simp only [hm]
  rw [if_neg (by omega)]

/-- The allocator stays within `[1, 0xFFFE]`. -/
theorem wrapSucc_range (n : Nat) (h1 : 1 ≤ n) (h2 : n ≤ 65534) :
    1 ≤ wrapSucc n ∧ wrapSucc n ≤ 65534 := by
  unfold wrapSucc
  have hm : (n + 1) % 65536 = n + 1 := Nat.mod_eq_of_lt (by omega)
  simp only [hm]
  split_ifs with h <;> omega

/-- Allocating `0xFFFE` wraps the counter to 1. -/
theorem wrapSucc_fffe : wrapSucc 65534 = 1 := by decide

/-- A chain started in range stays within `[1, 0xFFFE]`. -/
theorem wrapChain_mem :
    ∀ (n nid : Nat), 1 ≤ nid → nid ≤ 65534 →
      ∀ v ∈ wrapChain nid n, 1 ≤ v ∧ v ≤ 65534 := by
  intro n
  induction n with
  | zero =>
    intro nid h1 h2 v hv
    exact absurd hv (by simp [wrapChain])
  | succ m ih =>
    intro nid h1 h2 v hv
    rw [wrapChain] at hv
    rcases List.mem_cons.mp hv with hv | hv
    · rw [hv]
      exact ⟨h1, h2⟩
    · obtain ⟨hr1, hr2⟩ := wrapSucc_range nid h1 h2
      exact ih (wrapSucc nid) hr1 hr2 v hv

/-- Consecutive chain entries are related by `wrapSucc`. -/
theorem wrapChain_succ_getD :
    ∀ (n nid k : Nat), k + 1 < n →
      (wrapChain nid n).getD (k + 1) 0 = wrapSucc ((wrapChain nid n).getD k 0) := by
  intro n
  induction n with
  | zero =>
    intro nid k h
    omega
  | succ m ih =>
    intro nid k h
    rw [wrapChain]
    cases k with
    | zero =>
      cases m with
      | zero => omega
      | succ m2 =>
        rw [wrapChain]
        rfl
    | succ k2 =>
      have h2 := ih (wrapSucc nid) k2 (by omega)
      rw [List.getD_cons_succ, List.getD_cons_succ, h2]

/-- Chains compose. -/
theorem wrapChain_append :
    ∀ (a nid b : Nat),
      wrapChain nid (a + b) = wrapChain nid a ++ wrapChain (wrapSucc^[a] nid) b := by
  intro a
  induction a with
  | zero =>
    intro nid b
    rw [Nat.zero_add]
    rfl
  | succ m ih =>
    intro nid b
    have h1 : m + 1 + b = (m + b) + 1 := by omega
    rw [h1, wrapChain, ih (wrapSucc nid) b, wrapChain]
    rw [Function.iterate_succ_apply]
    rfl

/-- Without hitting the wrap boundary, `wrapSucc` iterates additively. -/
theorem iterate_wrapSucc_add :
    ∀ (n nid : Nat), 1 ≤ nid → nid + n ≤ 65534 → wrapSucc^[n] nid = nid + n := by
  intro n
  induction n with
  | zero =>
    intro nid h1 h2
    simp
  | succ m ih =>
    intro nid h1 h2
    rw [Function.iterate_succ_apply, wrapSucc_eq_add_one nid (by omega)]
    rw [ih (nid + 1) (by omega) (by omega)]
    omega

/-! ### The observer of the event stream -/

/-- Setting another index never changes a `getD` read. -/
theorem getD_set_ne {α : Type} (l : List α) (i k : Nat) (a d : α) (h : i ≠ k) :
    (l.set i a).getD k d = l.getD k d := by
  simp [List.getD_eq_getElem?_getD, List.getElem?_set_ne h]

/-- Setting an index inside the list is read back. -/
theorem getD_set_self {α : Type} (l : List α) (i : Nat) (a d : α) (h : i < l.length) :
    (l.set i a).getD i d = a := by
  simp [List.getD_eq_getElem?_getD, List.getElem?_set_self, h]

/-- One event changes the observer read of slot `j` exactly via `applyTracking`
when the event is a tracking event of slot `j`. -/
theorem obsApply_getD (obs : List (Option Int)) (e : TmEvent) (j : Nat)
    (hj : j < obs.length) :
    (obsApply obs e).getD j none =
      (if trackingFor j e then applyTracking (obs.getD j none) e
       else obs.getD j none) := by
  cases e with
  | trackingId i v =>
    by_cases hij : i = j
    · rw [hij]
      have ht : trackingFor j (TmEvent.trackingId j v) = true := by
        simp [trackingFor]
      rw [if_pos ht]
      show (obs.set j _).getD j none = _
      rw [getD_set_self obs j _ none hj]
      rfl
    · have ht : trackingFor j (TmEvent.trackingId i v) = false := by
        simp [trackingFor, hij]
      rw [if_neg (by simp [ht])]
      show (obs.set i _).getD j none = _
      rw [getD_set_ne obs i j _ none hij]
  | mtSlot i => rfl
  | posX i v => rfl
  | posY i v => rfl
  | pressure i v => rfl
  | toolFinger b => rfl
  | toolDouble b => rfl
  | toolTriple b => rfl
  | toolQuad b => rfl

/-- `obsApply` preserves the length. -/
theorem obsApply_length (obs : List (Option Int)) (e : TmEvent) :
    (obsApply obs e).length = obs.length := by
  cases e <;> simp [obsApply]

/-- `obsRun` preserves the length. -/
theorem obsRun_length (evs : List TmEvent) :
    ∀ (obs : List (Option Int)), (obsRun obs evs).length = obs.length := by
  induction evs with
  | nil => intro obs; rfl
  | cons e evs ih =>
    intro obs
    show (obsRun (obsApply obs e) evs).length = obs.length
    rw [ih (obsApply obs e), obsApply_length]

/-- The observer read of slot `j` after an event list folds `applyTracking`
over the tracking events of slot `j` only. -/
theorem obsRun_getD (evs : List TmEvent) :
    ∀ (obs : List (Option Int)) (j : Nat), j < obs.length →
      (obsRun obs evs).getD j none =
        List.foldl applyTracking (obs.getD j none) (List.filter (trackingFor j) evs) := by
  induction evs with
  | nil => intro obs j hj; rfl
  | cons e evs ih =>
    intro obs j hj
    have h1 : obsRun obs (e :: evs) = obsRun (obsApply obs e) evs := rfl
    have hj2 : j < (obsApply obs e).length := by
      rw [obsApply_length]
      exact hj
    rw [h1, ih (obsApply obs e) j hj2, obsApply_getD obs e j hj, List.filter_cons]
    by_cases hp : trackingFor j e
    · rw [if_pos hp, if_pos hp, List.foldl_cons]
    · rw [if_neg (by simp [hp]), if_neg hp]

end LogitechTM

namespace LogitechTM

/-! ### Frame-level lemmas for `emit_fingers` -/

/-- The tool-classification events carry no tracking event. -/
theorem emitFingers_filter (cfg : TmInfo) (st : TmState) (bytes : List Nat) (j : Nat) :
    List.filter (trackingFor j) (emitFingers cfg st bytes).2 =
      (if j < cfg.maxFingers then
        (if isSentinel (recAt bytes j) then [TmEvent.trackingId j (-1)]
         else if newTest st.prevSlotsUsed j then
           [TmEvent.trackingId j
             (Int.ofNat (nidAfter st.prevSlotsUsed bytes st.nextTrackingId 0 j))]
         else [])
       else []) := by
  have h1 : (emitFingers cfg st bytes).2 =
      (emitGo cfg st.prevSlotsUsed bytes cfg.maxFingers 0 0 st.nextTrackingId).2.2 ++
      [TmEvent.toolFinger _, TmEvent.toolDouble _, TmEvent.toolTriple _,
       TmEvent.toolQuad _] := rfl
  rw [h1, List.filter_append, emitGo_filter]
  have h2 : ∀ (b1 b2 b3 b4 : Bool), List.filter (trackingFor j)
      [TmEvent.toolFinger b1, TmEvent.toolDouble b2, TmEvent.toolTriple b3,
       TmEvent.toolQuad b4] = [] := by
    intro b1 b2 b3 b4
    simp [trackingFor]
  rw [h2, List.append_nil]
  have h3 : (0 ≤ j ∧ j < 0 + cfg.maxFingers) ↔ j < cfg.maxFingers := by omega
  by_cases hj : j < cfg.maxFingers
  · rw [if_pos (h3.mpr hj), if_pos hj]
    have h4 : j - 0 = j := by omega
    rw [h4]
  · rw [if_neg (fun hc => hj (h3.mp hc)), if_neg hj]

/-- The allocator value stored back by `emit_fingers`. -/
theorem emitFingers_nid (cfg : TmInfo) (st : TmState) (bytes : List Nat) :
    (emitFingers cfg st bytes).1.nextTrackingId =
      nidAfter st.prevSlotsUsed bytes st.nextTrackingId 0 cfg.maxFingers := by
  have h1 : (emitFingers cfg st bytes).1.nextTrackingId =
      (emitGo cfg st.prevSlotsUsed bytes cfg.maxFingers 0 0 st.nextTrackingId).2.1 := rfl
  rw [h1, emitGo_nid]

/-- The slot mask stored back by `emit_fingers`. -/
theorem emitFingers_prev_testBit (cfg : TmInfo) (st : TmState) (bytes : List Nat) (j : Nat) :
    Nat.testBit (emitFingers cfg st bytes).1.prevSlotsUsed j =
      decide (j < cfg.maxFingers ∧ j < 8 ∧ isSentinel (recAt bytes j) = false) := by
  have h1 : (emitFingers cfg st bytes).1.prevSlotsUsed =
      (emitGo cfg st.prevSlotsUsed bytes cfg.maxFingers 0 0 st.nextTrackingId).1 := rfl
  rw [h1, emitGo_su]
  rw [Nat.zero_testBit, Bool.false_or]
  rw [decide_eq_decide]
  constructor
  · rintro ⟨-, ha, hb, hc⟩
    exact ⟨by omega, hb, hc⟩
  · rintro ⟨ha, hb, hc⟩
    exact ⟨by omega, by omega, hb, hc⟩

/-- The allocations of one frame form a `wrapSucc` chain. -/
theorem emitFingers_allocs (cfg : TmInfo) (st : TmState) (bytes : List Nat) :
    allocsOfEvents (emitFingers cfg st bytes).2 =
      wrapChain st.nextTrackingId (allocCnt st.prevSlotsUsed bytes 0 cfg.maxFingers) := by
  have h1 : (emitFingers cfg st bytes).2 =
      (emitGo cfg st.prevSlotsUsed bytes cfg.maxFingers 0 0 st.nextTrackingId).2.2 ++
      [TmEvent.toolFinger _, TmEvent.toolDouble _, TmEvent.toolTriple _,
       TmEvent.toolQuad _] := rfl
  rw [h1]
  have happ : ∀ (a b : List TmEvent),
      allocsOfEvents (a ++ b) = allocsOfEvents a ++ allocsOfEvents b := by
    intro a b
    simp [allocsOfEvents, List.filterMap_append]
  rw [happ, emitGo_allocs]
  have h2 : ∀ (b1 b2 b3 b4 : Bool), allocsOfEvents
      [TmEvent.toolFinger b1, TmEvent.toolDouble b2, TmEvent.toolTriple b3,
       TmEvent.toolQuad b4] = [] := by
    intro b1 b2 b3 b4
    simp [allocsOfEvents]
  rw [h2, List.append_nil]

/-- The observer update of one frame, per slot. -/
theorem tmFrameStep_obs (cfg : TmInfo) (r : TmRun) (bytes : List Nat) (j : Nat)
    (hl : r.obs.length = cfg.maxFingers) (hj : j < cfg.maxFingers) :
    (tmFrameStep cfg r bytes).obs.getD j none =
      (if isSentinel (recAt bytes j) then none
       else if newTest r.st.prevSlotsUsed j then
         some (Int.ofNat (nidAfter r.st.prevSlotsUsed bytes r.st.nextTrackingId 0 j))
       else r.obs.getD j none) := by
  have h1 : (tmFrameStep cfg r bytes).obs = obsRun r.obs (emitFingers cfg r.st bytes).2 := rfl
  rw [h1, obsRun_getD _ r.obs j (by omega), emitFingers_filter, if_pos hj]
  by_cases hs : isSentinel (recAt bytes j)
  · rw [if_pos hs, if_pos hs]
    rfl
  · rw [if_neg hs, if_neg hs]
    by_cases hn : newTest r.st.prevSlotsUsed j
    · rw [if_pos hn, if_pos hn]
      have hnn : ¬ ((Int.ofNat (nidAfter r.st.prevSlotsUsed bytes
          r.st.nextTrackingId 0 j)) < 0) := by
        rw [Int.ofNat_eq_natCast]
        omega
      simp [applyTracking, hnn]
    · rw [if_neg hn, if_neg hn]
      rfl

/-- One frame preserves the observer length. -/
theorem tmFrameStep_obs_length (cfg : TmInfo) (r : TmRun) (bytes : List Nat) :
    (tmFrameStep cfg r bytes).obs.length = r.obs.length := by
  show (obsRun r.obs (emitFingers cfg r.st bytes).2).length = r.obs.length
  rw [obsRun_length]

/-- C9: if slot `i`'s record is the 4-byte sentinel `ff ff ff ff`, processing
the frame emits the "no contact" event (tracking id `-1`) for slot `i`, emits
no tracking-id assignment for slot `i`, and leaves slot `i` out of the set of
slots recorded as used for the frame — regardless of the previous state. -/
theorem c9_sentinel_record (cfg : TmInfo) (st : TmState) (bytes : List Nat) (i : Nat)
    (hi : i < cfg.maxFingers) (hs : isSentinel (recAt bytes i) = true) :
    TmEvent.trackingId i (-1) ∈ (emitFingers cfg st bytes).2 ∧
    (∀ v : Int, 0 ≤ v → TmEvent.trackingId i v ∉ (emitFingers cfg st bytes).2) ∧
    Nat.testBit (emitFingers cfg st bytes).1.prevSlotsUsed i = false := by
  have hf := emitFingers_filter cfg st bytes i
  rw [if_pos hi, if_pos hs] at hf
  refine ⟨?_, ?_, ?_⟩
  · have : TmEvent.trackingId i (-1) ∈
        List.filter (trackingFor i) (emitFingers cfg st bytes).2 := by
      rw [hf]
      exact List.mem_singleton.mpr rfl
    exact List.mem_of_mem_filter this
  · intro v hv hmem
    have ht : trackingFor i (TmEvent.trackingId i v) = true := by
      simp [trackingFor]
    have : TmEvent.trackingId i v ∈
        List.filter (trackingFor i) (emitFingers cfg st bytes).2 :=
      List.mem_filter.mpr ⟨hmem, ht⟩
    rw [hf] at this
    have hv1 : TmEvent.trackingId i v = TmEvent.trackingId i (-1) :=
      List.mem_singleton.mp this
    have hv2 : v = -1 := by
      injection hv1
    omega
  · rw [emitFingers_prev_testBit]
    rw [decide_eq_false_iff_not]
    rintro ⟨-, -, hc⟩
    rw [hs] at hc
    exact Bool.noConfusion hc

/-- Witness for `c9_sentinel_record` on a concrete frame. -/
theorem c9_sentinel_record_witness :
    TmEvent.trackingId 1 (-1) ∈ (emitFingers cexInfo tmInitState frameA).2 ∧
    (∀ v : Int, 0 ≤ v → TmEvent.trackingId 1 v ∉ (emitFingers cexInfo tmInitState frameA).2) ∧
    Nat.testBit (emitFingers cexInfo tmInitState frameA).1.prevSlotsUsed 1 = false :=
  c9_sentinel_record cexInfo tmInitState frameA 1 (by decide) (by decide)

end LogitechTM

namespace LogitechTM

/-- A chain of `n` values has length `n`. -/
theorem wrapChain_length : ∀ (n nid : Nat), (wrapChain nid n).length = n := by
  intro n
  induction n with
  | zero => intro nid; rfl
  | succ m ih =>
    intro nid
    rw [wrapChain]
    show (wrapChain (wrapSucc nid) m).length + 1 = m + 1
    rw [ih]

/-- The allocation events of any run form a single `wrapSucc` chain starting
at the state's allocator value. -/
theorem allocSeq_spec (cfg : TmInfo) :
    ∀ (frames : List (List Nat)) (st : TmState),
      ∃ n, allocSeq cfg st frames = wrapChain st.nextTrackingId n := by
  intro frames
  induction frames with
  | nil =>
    intro st
    exact ⟨0, rfl⟩
  | cons f fs ih =>
    intro st
    have h1 : allocSeq cfg st (f :: fs) =
        allocsOfEvents (emitFingers cfg st f).2 ++
        allocSeq cfg (emitFingers cfg st f).1 fs := rfl
    obtain ⟨m, hm⟩ := ih (emitFingers cfg st f).1
    refine ⟨allocCnt st.prevSlotsUsed f 0 cfg.maxFingers + m, ?_⟩
    have hnid : (emitFingers cfg st f).1.nextTrackingId =
        wrapSucc^[allocCnt st.prevSlotsUsed f 0 cfg.maxFingers] st.nextTrackingId := by
      rw [emitFingers_nid, nidAfter_eq_iterate]
    rw [h1, emitFingers_allocs, hm, hnid, wrapChain_append]

/-- Allocation events coincide with tracking events carrying a non-negative id. -/
theorem allocEventFor_eq (j : Nat) (e : TmEvent) :
    allocEventFor j e = (isAllocEvent e && trackingFor j e) := by
  cases e with
  | trackingId i v =>
    show ((i == j) && decide (0 ≤ v)) = (decide (0 ≤ v) && (i == j))
    exact Bool.and_comm _ _
  | mtSlot i => rfl
  | posX i v => rfl
  | posY i v => rfl
  | pressure i v => rfl
  | toolFinger b => rfl
  | toolDouble b => rfl
  | toolTriple b => rfl
  | toolQuad b => rfl

/-- C6: the allocator starts at 1 (`tm_probe`); every allocated tracking id
lies in `[1, 0xFFFE]`, so it is never 0 and never `0xFFFF`; immediately after
allocating `0xFFFE` the next allocation yields 1; and within a frame, slot `j`
receives exactly one tracking-id allocation when it transitions
inactive→active (previous-mask bit clear and record non-sentinel) and none
otherwise — in particular none while it stays active. -/
theorem c6_tracking_id_allocation (cfg : TmInfo) (frames : List (List Nat))
    (hm : cfg.maxFingers ≤ 8) :
    tmInitState.nextTrackingId = 1 ∧
    (∀ v ∈ allocSeq cfg tmInitState frames, 1 ≤ v ∧ v ≤ 65534) ∧
    (∀ v ∈ allocSeq cfg tmInitState frames, v ≠ 0 ∧ v ≠ 65535) ∧
    (∀ k, k + 1 < (allocSeq cfg tmInitState frames).length →
      (allocSeq cfg tmInitState frames).getD k 0 = 65534 →
      (allocSeq cfg tmInitState frames).getD (k + 1) 0 = 1) ∧
    (∀ (st : TmState) (bytes : List Nat) (j : Nat), j < cfg.maxFingers →
      List.countP (allocEventFor j) (emitFingers cfg st bytes).2 =
        (if Nat.testBit st.prevSlotsUsed j = false ∧
            isSentinel (recAt bytes j) = false then 1 else 0)) := by
  obtain ⟨n, hn⟩ := allocSeq_spec cfg frames tmInitState
  have hinit : tmInitState.nextTrackingId = 1 := rfl
  have hmem : ∀ v ∈ allocSeq cfg tmInitState frames, 1 ≤ v ∧ v ≤ 65534 := by
    rw [hn, hinit]
    exact wrapChain_mem n 1 (by omega) (by omega)
  refine ⟨hinit, hmem, ?_, ?_, ?_⟩
  · intro v hv
    have := hmem v hv
    omega
  · intro k hk hval
    rw [hn] at hk hval ⊢
    rw [wrapChain_length] at hk
    rw [wrapChain_succ_getD n _ k hk, hval, wrapSucc_fffe]
  · intro st bytes j hj
    have hfun : allocEventFor j = fun e => isAllocEvent e && trackingFor j e :=
      funext (allocEventFor_eq j)
    rw [hfun, ← List.countP_filter, emitFingers_filter, if_pos hj]
    rw [newTest_eq st.prevSlotsUsed j (by omega)]
    by_cases hs : isSentinel (recAt bytes j)
    · rw [if_pos hs, if_neg (by simp [hs])]
      simp [List.countP_cons, isAllocEvent]
    · rw [if_neg hs]
      by_cases hb : Nat.testBit st.prevSlotsUsed j
      · rw [if_neg (by simp [hb]), if_neg (by simp [hb])]
        rfl
      · have hb' : Nat.testBit st.prevSlotsUsed j = false := by simpa using hb
        rw [if_pos (by simp [hb']), if_pos ⟨hb', by simpa using hs⟩]
        have hok : isAllocEvent (TmEvent.trackingId j
            ((nidAfter st.prevSlotsUsed bytes st.nextTrackingId 0 j : Nat) : Int)) = true := by
          show decide (0 ≤ ((nidAfter st.prevSlotsUsed bytes
            st.nextTrackingId 0 j : Nat) : Int)) = true
          rw [decide_eq_true_eq]
          omega
        simp [List.countP_cons, hok]

/-- Witness for `c6_tracking_id_allocation` on a concrete two-slot run. -/
theorem c6_tracking_id_allocation_witness :
    (tmInitState.nextTrackingId = 1 ∧
    (∀ v ∈ allocSeq cexInfo tmInitState [frameBoth, frameA], 1 ≤ v ∧ v ≤ 65534) ∧
    (∀ v ∈ allocSeq cexInfo tmInitState [frameBoth, frameA], v ≠ 0 ∧ v ≠ 65535) ∧
    (∀ k, k + 1 < (allocSeq cexInfo tmInitState [frameBoth, frameA]).length →
      (allocSeq cexInfo tmInitState [frameBoth, frameA]).getD k 0 = 65534 →
      (allocSeq cexInfo tmInitState [frameBoth, frameA]).getD (k + 1) 0 = 1) ∧
    (∀ (st : TmState) (bytes : List Nat) (j : Nat), j < cexInfo.maxFingers →
      List.countP (allocEventFor j) (emitFingers cexInfo st bytes).2 =
        (if Nat.testBit st.prevSlotsUsed j = false ∧
            isSentinel (recAt bytes j) = false then 1 else 0))) :=
  c6_tracking_id_allocation cexInfo [frameBoth, frameA] (by decide)

end LogitechTM

namespace LogitechTM

/-! ### C1: tracking-id duplication after allocator wrap -/

/-- One lift/re-place cycle of slot 1 keeps slot 0 untouched, advances the
allocator once, and re-assigns slot 1 the pre-advance allocator value. -/
theorem cycleStep_eq (k : Nat) (o0 o1 : Option Int) :
    cycleStep ⟨⟨3, k⟩, [o0, o1]⟩ = ⟨⟨3, wrapSucc k⟩, [o0, some (Int.ofNat k)]⟩ := by
  have hk : ¬ ((Int.ofNat k) < 0) := by
    rw [Int.ofNat_eq_natCast]
    omega
  simp [cycleStep, tmFrameStep, emitFingers, emitGo, slotStep, recAt, frameA, frameBoth,
    cexInfo, isSentinel, newTest, slotMask, swapX, swapY, obsRun, obsApply, hk]

/-- Iterating the cycle `n + 1` times from the two-finger state. -/
theorem cycleStep_iter :
    ∀ (n : Nat) (k : Nat) (o0 o1 : Option Int),
      cycleStep^[n + 1] ⟨⟨3, k⟩, [o0, o1]⟩ =
        ⟨⟨3, wrapSucc^[n + 1] k⟩, [o0, some (Int.ofNat (wrapSucc^[n] k))]⟩ := by
  intro n
  induction n with
  | zero =>
    intro k o0 o1
    rw [Function.iterate_one, cycleStep_eq]
    rfl
  | succ m ih =>
    intro k o0 o1
    rw [Function.iterate_succ_apply, cycleStep_eq, ih (wrapSucc k) o0 (some (Int.ofNat k))]
    rw [← Function.iterate_succ_apply wrapSucc (m + 1) k,
        ← Function.iterate_succ_apply wrapSucc m k]

/-- Unfolding one frame of a run. -/
theorem tmProcess_cons (cfg : TmInfo) (r : TmRun) (f : List Nat)
    (fs : List (List Nat)) :
    tmProcess cfg r (f :: fs) = tmProcess cfg (tmFrameStep cfg r f) fs := rfl

/-- Cycled frame lists fold to cycle iterates. -/
theorem tmProcess_cycles :
    ∀ (n : Nat) (r : TmRun),
      tmProcess cexInfo r (List.flatten (List.replicate n [frameA, frameBoth])) =
        cycleStep^[n] r := by
  intro n
  induction n with
  | zero => intro r; rfl
  | succ m ih =>
    intro r
    have h1 : List.flatten (List.replicate (m + 1) [frameA, frameBoth]) =
        frameA :: frameBoth :: List.flatten (List.replicate m [frameA, frameBoth]) := rfl
    rw [h1]
    have h2 : tmProcess cexInfo r
        (frameA :: frameBoth :: List.flatten (List.replicate m [frameA, frameBoth])) =
        tmProcess cexInfo (cycleStep r)
          (List.flatten (List.replicate m [frameA, frameBoth])) := rfl
    rw [h2, ih (cycleStep r), ← Function.iterate_succ_apply]

/-- C1 (counterexample): after the tracking-id counter wraps, two
simultaneously-active slots carry the same tracking id.  Processing the
concrete frame sequence `c1Frames` (both slots touched, then slot 1 lifted and
re-placed 65533 times, all slots active in every frame's end state) leaves
both slot 0 and slot 1 active and both carrying tracking id 1. -/
theorem c1_wrap_duplicate_counterexample :
    (tmProcess cexInfo (tmInitRun cexInfo) c1Frames).obs.getD 0 none = some 1 ∧
    (tmProcess cexInfo (tmInitRun cexInfo) c1Frames).obs.getD 1 none = some 1 ∧
    (tmProcess cexInfo (tmInitRun cexInfo) c1Frames).st.prevSlotsUsed = 3 := by
  have h0 : tmProcess cexInfo (tmInitRun cexInfo) c1Frames =
      cycleStep^[65533] (tmFrameStep cexInfo (tmInitRun cexInfo) frameBoth) := by
    rw [c1Frames, tmProcess_cons, tmProcess_cycles]
  have h1 : tmFrameStep cexInfo (tmInitRun cexInfo) frameBoth =
      ⟨⟨3, 3⟩, [some 1, some 2]⟩ := by decide
  have h2 := cycleStep_iter 65532 3 (some 1) (some 2)
  have h3 : wrapSucc^[65531] 3 = 65534 := iterate_wrapSucc_add 65531 3 (by omega) (by omega)
  have h4 : wrapSucc^[65532] 3 = 1 := by
    rw [show (65532 : Nat) = 65531 + 1 from rfl, Function.iterate_succ_apply', h3,
      wrapSucc_fffe]
  rw [h0, h1, show (65533 : Nat) = 65532 + 1 from rfl, h2, h4]
  exact ⟨rfl, rfl, rfl⟩

end LogitechTM

namespace LogitechTM

/-- Additive form of the allocator advance when no wrap occurs. -/
theorem nidAfter_add (prev : Nat) (bytes : List Nat) (nid i0 k : Nat)
    (h1 : 1 ≤ nid) (h : nid + allocCnt prev bytes i0 k ≤ 65534) :
    nidAfter prev bytes nid i0 k = nid + allocCnt prev bytes i0 k := by
  rw [nidAfter_eq_iterate]
  exact iterate_wrapSucc_add _ _ h1 h

/-- Allocation counts grow along prefixes. -/
theorem allocCnt_le (prev : Nat) (bytes : List Nat) (j k : Nat) (h : j ≤ k) :
    allocCnt prev bytes 0 j ≤ allocCnt prev bytes 0 k := by
  have h2 : k = j + (k - j) := by omega
  rw [h2, allocCnt_add]
  omega

/-- An allocating slot makes the count past it strictly larger. -/
theorem allocCnt_lt_of_alloc (prev : Nat) (bytes : List Nat) (i k : Nat)
    (hik : i < k) (hA : allocAt prev bytes i = true) :
    allocCnt prev bytes 0 i < allocCnt prev bytes 0 k := by
  have h2 : k = i + (k - i) := by omega
  rw [h2, allocCnt_add]
  have h3 := allocCnt_pos prev bytes (0 + i) (k - i) (by rw [Nat.zero_add]; exact hA)
    (by omega)
  omega

/-- One frame preserves coherence and the tracking-id invariants, provided the
allocator does not wrap during the frame. -/
theorem tmFrameStep_invariant (cfg : TmInfo) (hm : cfg.maxFingers ≤ 8)
    (r : TmRun) (bytes : List Nat)
    (hC : Coherent cfg r) (hI : IdsOk r)
    (hw : r.st.nextTrackingId +
      allocCnt r.st.prevSlotsUsed bytes 0 cfg.maxFingers ≤ 65534) :
    Coherent cfg (tmFrameStep cfg r bytes) ∧ IdsOk (tmFrameStep cfg r bytes) ∧
    (tmFrameStep cfg r bytes).st.nextTrackingId =
      r.st.nextTrackingId + allocCnt r.st.prevSlotsUsed bytes 0 cfg.maxFingers := by
  obtain ⟨hlen, hcoh⟩ := hC
  obtain ⟨hn1, hval, hdist⟩ := hI
  have hnid : (tmFrameStep cfg r bytes).st.nextTrackingId =
      r.st.nextTrackingId + allocCnt r.st.prevSlotsUsed bytes 0 cfg.maxFingers := by
    show (emitFingers cfg r.st bytes).1.nextTrackingId = _
    rw [emitFingers_nid, nidAfter_add _ _ _ _ _ hn1 hw]
  have hlen2 : (tmFrameStep cfg r bytes).obs.length = cfg.maxFingers := by
    rw [tmFrameStep_obs_length, hlen]
  -- the observer value of a slot after the frame
  have hobs : ∀ j, j < cfg.maxFingers →
      (tmFrameStep cfg r bytes).obs.getD j none =
        (if isSentinel (recAt bytes j) then none
         else if newTest r.st.prevSlotsUsed j then
           some (Int.ofNat (nidAfter r.st.prevSlotsUsed bytes r.st.nextTrackingId 0 j))
         else r.obs.getD j none) :=
    fun j hj => tmFrameStep_obs cfg r bytes j hlen hj
  have hobs_none : ∀ j, cfg.maxFingers ≤ j →
      (tmFrameStep cfg r bytes).obs.getD j none = none := by
    intro j hj
    exact List.getD_eq_default _ _ (by rw [hlen2]; exact hj)
  have hobs_old_none : ∀ j, cfg.maxFingers ≤ j → r.obs.getD j none = none := by
    intro j hj
    exact List.getD_eq_default _ _ (by rw [hlen]; exact hj)
  -- the value carried by a newly-assigned slot, additively
  have hnewval : ∀ j, j < cfg.maxFingers →
      nidAfter r.st.prevSlotsUsed bytes r.st.nextTrackingId 0 j =
        r.st.nextTrackingId + allocCnt r.st.prevSlotsUsed bytes 0 j := by
    intro j hj
    refine nidAfter_add _ _ _ _ _ hn1 ?_
    have := allocCnt_le r.st.prevSlotsUsed bytes j cfg.maxFingers (by omega)
    omega
  -- case analysis helper: what `some v` can be after the frame
  have hcases : ∀ j v, j < cfg.maxFingers →
      (tmFrameStep cfg r bytes).obs.getD j none = some v →
      (isSentinel (recAt bytes j) = false ∧ newTest r.st.prevSlotsUsed j = true ∧
        v = (r.st.nextTrackingId + allocCnt r.st.prevSlotsUsed bytes 0 j : Nat) ∧
        allocAt r.st.prevSlotsUsed bytes j = true) ∨
      (r.obs.getD j none = some v ∧ newTest r.st.prevSlotsUsed j = false) := by
    intro j v hj hv
    rw [hobs j hj] at hv
    by_cases hs : isSentinel (recAt bytes j)
    · rw [if_pos hs] at hv
      exact Option.noConfusion hv
    · rw [if_neg hs] at hv
      by_cases hnw : newTest r.st.prevSlotsUsed j
      · rw [if_pos hnw] at hv
        left
        refine ⟨by simpa using hs, hnw, ?_, ?_⟩
        · have := Option.some_inj.mp hv
          rw [← this, hnewval j hj]
          rfl
        · rw [allocAt]
          simp [hs, hnw]
      · rw [if_neg hnw] at hv
        right
        exact ⟨hv, by simpa using hnw⟩
  refine ⟨⟨hlen2, ?_⟩, ⟨?_, ?_, ?_⟩, hnid⟩
  · -- coherence
    intro j hj
    rw [hobs j hj]
    have hbit := emitFingers_prev_testBit cfg r.st bytes j
    have hbit2 : Nat.testBit (tmFrameStep cfg r bytes).st.prevSlotsUsed j =
        decide (j < cfg.maxFingers ∧ j < 8 ∧ isSentinel (recAt bytes j) = false) := hbit
    rw [hbit2]
    by_cases hs : isSentinel (recAt bytes j)
    · rw [if_pos hs]
      have : ¬ (j < cfg.maxFingers ∧ j < 8 ∧ isSentinel (recAt bytes j) = false) := by
        rintro ⟨-, -, hc⟩
        rw [hs] at hc
        exact Bool.noConfusion hc
      rw [decide_eq_false this]
      rfl
    · rw [if_neg hs]
      have hpos : (j < cfg.maxFingers ∧ j < 8 ∧ isSentinel (recAt bytes j) = false) :=
        ⟨hj, by omega, by simpa using hs⟩
      rw [decide_eq_true hpos]
      by_cases hnw : newTest r.st.prevSlotsUsed j
      · rw [if_pos hnw]
        rfl
      · rw [if_neg hnw]
        have hold := hcoh j hj
        have hnwb : Nat.testBit r.st.prevSlotsUsed j = true := by
          have := newTest_eq r.st.prevSlotsUsed j (by omega)
          rw [this] at hnw
          simpa using hnw
        rw [hold, hnwb]
  · -- allocator positivity
    rw [hnid]
    omega
  · -- value bounds
    intro j v hv
    by_cases hj : j < cfg.maxFingers
    · rcases hcases j v hj hv with ⟨-, -, hveq, hA⟩ | ⟨hold, -⟩
      · rw [hveq, hnid]
        have := allocCnt_lt_of_alloc r.st.prevSlotsUsed bytes j cfg.maxFingers hj hA
        constructor
        · omega
        · push_cast
          omega
      · have := hval j v hold
        rw [hnid]
        have hle : (r.st.nextTrackingId : Int) ≤
            (r.st.nextTrackingId + allocCnt r.st.prevSlotsUsed bytes 0 cfg.maxFingers : Nat) := by
          push_cast
          omega
        exact ⟨this.1, lt_of_lt_of_le this.2 hle⟩
    · rw [hobs_none j (by omega)] at hv
      exact Option.noConfusion hv
  · -- pairwise distinctness
    intro i j v w hij hv hw2
    by_cases hi : i < cfg.maxFingers
    · by_cases hj : j < cfg.maxFingers
      · rcases hcases i v hi hv with ⟨-, -, hveq, hAi⟩ | ⟨holdi, -⟩ <;>
          rcases hcases j w hj hw2 with ⟨-, -, hweq, hAj⟩ | ⟨holdj, -⟩
        · -- both new: distinct prefix counts
          rw [hveq, hweq]
          rcases Nat.lt_or_ge i j with hlt | hge
          · have := allocCnt_lt_of_alloc r.st.prevSlotsUsed bytes i j hlt hAi
            intro hc
            rw [Int.natCast_inj] at hc
            omega
          · have hlt : j < i := by omega
            have := allocCnt_lt_of_alloc r.st.prevSlotsUsed bytes j i hlt hAj
            intro hc
            rw [Int.natCast_inj] at hc
            omega
        · -- i new, j old
          have hwb := hval j w holdj
          rw [hveq]
          intro hc
          rw [← hc] at hwb
          have : (r.st.nextTrackingId : Int) ≤
              ((r.st.nextTrackingId + allocCnt r.st.prevSlotsUsed bytes 0 i : Nat) : Int) := by
            push_cast
            omega
          omega
        · -- i old, j new
          have hvb := hval i v holdi
          rw [hweq]
          intro hc
          rw [hc] at hvb
          have : (r.st.nextTrackingId : Int) ≤
              ((r.st.nextTrackingId + allocCnt r.st.prevSlotsUsed bytes 0 j : Nat) : Int) := by
            push_cast
            omega
          omega
        · -- both old
          exact hdist i j v w hij holdi holdj
      · rw [hobs_none j (by omega)] at hw2
        exact absurd hw2 (by simp)
    · rw [hobs_none i (by omega)] at hv
      exact absurd hv (by simp)

end LogitechTM

namespace LogitechTM

/-- A whole run preserves coherence and the tracking-id invariants as long as
the allocator never wraps. -/
theorem tmRun_invariant (cfg : TmInfo) (hm : cfg.maxFingers ≤ 8) :
    ∀ (frames : List (List Nat)) (r : TmRun),
      Coherent cfg r → IdsOk r →
      r.st.nextTrackingId + (allocSeq cfg r.st frames).length ≤ 65534 →
      Coherent cfg (tmProcess cfg r frames) ∧ IdsOk (tmProcess cfg r frames) := by
  intro frames
  induction frames with
  | nil =>
    intro r hC hI hw
    exact ⟨hC, hI⟩
  | cons f fs ih =>
    intro r hC hI hw
    have hsplit : allocSeq cfg r.st (f :: fs) =
        allocsOfEvents (emitFingers cfg r.st f).2 ++
        allocSeq cfg (emitFingers cfg r.st f).1 fs := rfl
    have hflen : (allocsOfEvents (emitFingers cfg r.st f).2).length =
        allocCnt r.st.prevSlotsUsed f 0 cfg.maxFingers := by
      rw [emitFingers_allocs, wrapChain_length]
    have hwlen : r.st.nextTrackingId +
        allocCnt r.st.prevSlotsUsed f 0 cfg.maxFingers +
        (allocSeq cfg (emitFingers cfg r.st f).1 fs).length ≤ 65534 := by
      rw [hsplit, List.length_append, hflen] at hw
      omega
    obtain ⟨hC2, hI2, hnid2⟩ := tmFrameStep_invariant cfg hm r f hC hI (by omega)
    have hst : (tmFrameStep cfg r f).st = (emitFingers cfg r.st f).1 := rfl
    have hproc : tmProcess cfg r (f :: fs) = tmProcess cfg (tmFrameStep cfg r f) fs := rfl
    rw [hproc]
    refine ih (tmFrameStep cfg r f) hC2 hI2 ?_
    rw [hnid2, hst]
    exact hwlen

theorem tmFrameStep_coherent (cfg : TmInfo) (hm : cfg.maxFingers ≤ 8)
    (r : TmRun) (bytes : List Nat) (hC : Coherent cfg r) :
    Coherent cfg (tmFrameStep cfg r bytes) := by
  obtain ⟨hlen, hcoh⟩ := hC
  have hlen2 : (tmFrameStep cfg r bytes).obs.length = cfg.maxFingers := by
    rw [tmFrameStep_obs_length, hlen]
  refine ⟨hlen2, ?_⟩
  intro j hj
  rw [tmFrameStep_obs cfg r bytes j hlen hj]
  have hbit2 : Nat.testBit (tmFrameStep cfg r bytes).st.prevSlotsUsed j =
      decide (j < cfg.maxFingers ∧ j < 8 ∧ isSentinel (recAt bytes j) = false) :=
    emitFingers_prev_testBit cfg r.st bytes j
  rw [hbit2]
  by_cases hs : isSentinel (recAt bytes j)
  · rw [if_pos hs]
    have hneg : ¬ (j < cfg.maxFingers ∧ j < 8 ∧ isSentinel (recAt bytes j) = false) := by
      rintro ⟨-, -, hc⟩
      rw [hs] at hc
      exact Bool.noConfusion hc
    rw [decide_eq_false hneg]
    rfl
  · rw [if_neg hs]
    have hpos : (j < cfg.maxFingers ∧ j < 8 ∧ isSentinel (recAt bytes j) = false) :=
      ⟨hj, by omega, by simpa using hs⟩
    rw [decide_eq_true hpos]
    by_cases hnw : newTest r.st.prevSlotsUsed j
    · rw [if_pos hnw]
      rfl
    · rw [if_neg hnw]
      have hnwb : Nat.testBit r.st.prevSlotsUsed j = true := by
        have := newTest_eq r.st.prevSlotsUsed j (by omega)
        rw [this] at hnw
        simpa using hnw
      rw [hcoh j hj, hnwb]

theorem tmRun_coherent (cfg : TmInfo) (hm : cfg.maxFingers ≤ 8) :
    ∀ (frames : List (List Nat)) (r : TmRun),
      Coherent cfg r → Coherent cfg (tmProcess cfg r frames) := by
  intro frames
  induction frames with
  | nil => intro r hC; exact hC
  | cons f fs ih =>
    intro r hC
    rw [tmProcess_cons]
    exact ih (tmFrameStep cfg r f) (tmFrameStep_coherent cfg hm r f hC)

/-- C1 (amended): processing any frame sequence from the probe-initial state,
(1) as long as the 16-bit tracking-id allocator has not wrapped (at most 65533
ids allocated in the run), no two simultaneously-active slots carry the same
tracking id; and (2) unconditionally on the wrap bound, a slot holding a
tracking id keeps exactly that id across a further frame whose record for the
slot is not the sentinel: the frame emits no tracking-id event at all for that
slot, so the id stays constant until a sentinel record retires it. -/
theorem c1_tracking_id_lifecycle (cfg : TmInfo) (hm : cfg.maxFingers ≤ 8)
    (frames : List (List Nat)) :
    ((allocSeq cfg tmInitState frames).length ≤ 65533 →
      ∀ i j : Nat, ∀ v w : Int, i ≠ j →
      (tmProcess cfg (tmInitRun cfg) frames).obs.getD i none = some v →
      (tmProcess cfg (tmInitRun cfg) frames).obs.getD j none = some w →
      v ≠ w) ∧
    (∀ (bytes : List Nat) (i : Nat) (v : Int), i < cfg.maxFingers →
      (tmProcess cfg (tmInitRun cfg) frames).obs.getD i none = some v →
      isSentinel (recAt bytes i) = false →
      ((tmFrameStep cfg (tmProcess cfg (tmInitRun cfg) frames) bytes).obs.getD i none
          = some v ∧
       ∀ w : Int, TmEvent.trackingId i w ∉
          (emitFingers cfg (tmProcess cfg (tmInitRun cfg) frames).st bytes).2)) := by
  have hCinit : Coherent cfg (tmInitRun cfg) := by
    constructor
    · show (List.replicate cfg.maxFingers (none : Option Int)).length = cfg.maxFingers
      rw [List.length_replicate]
    · intro j hj
      have h1 : (tmInitRun cfg).obs.getD j none = none := by
        show (List.replicate cfg.maxFingers (none : Option Int)).getD j none = none
        rw [List.getD_eq_getElem?_getD, List.getElem?_replicate]
        by_cases hc : j < cfg.maxFingers <;> simp [hc]
      rw [h1]
      show false = Nat.testBit 0 j
      rw [Nat.zero_testBit]
  have hIinit : IdsOk (tmInitRun cfg) := by
    refine ⟨le_rfl, ?_, ?_⟩
    · intro j v hv
      have h1 : (tmInitRun cfg).obs.getD j none = none := by
        show (List.replicate cfg.maxFingers (none : Option Int)).getD j none = none
        rw [List.getD_eq_getElem?_getD, List.getElem?_replicate]
        by_cases hc : j < cfg.maxFingers <;> simp [hc]
      rw [h1] at hv
      exact absurd hv (by simp)
    · intro i j v w hij hv hw2
      have h1 : (tmInitRun cfg).obs.getD i none = none := by
        show (List.replicate cfg.maxFingers (none : Option Int)).getD i none = none
        rw [List.getD_eq_getElem?_getD, List.getElem?_replicate]
        by_cases hc : i < cfg.maxFingers <;> simp [hc]
      rw [h1] at hv
      exact absurd hv (by simp)
  have hinit_st : (tmInitRun cfg).st = tmInitState := rfl
  constructor
  · intro hw i j v w hij hv hw2
    obtain ⟨-, hIfin⟩ := tmRun_invariant cfg hm frames (tmInitRun cfg) hCinit hIinit
      (by rw [hinit_st]; show 1 + _ ≤ 65534; omega)
    exact hIfin.2.2 i j v w hij hv hw2
  · intro bytes i v hi hv hs
    obtain ⟨hlen, hcoh⟩ := tmRun_coherent cfg hm frames (tmInitRun cfg) hCinit
    have hbit : Nat.testBit (tmProcess cfg (tmInitRun cfg) frames).st.prevSlotsUsed i
        = true := by
      have := hcoh i hi
      rw [hv] at this
      simpa using this.symm
    have hnw : newTest (tmProcess cfg (tmInitRun cfg) frames).st.prevSlotsUsed i = false := by
      rw [newTest_eq _ i (by omega), hbit]
      rfl
    constructor
    · rw [tmFrameStep_obs cfg _ bytes i hlen hi, if_neg (by simp [hs]),
        if_neg (by simp [hnw])]
      exact hv
    · intro w hmem
      have hfil := emitFingers_filter cfg (tmProcess cfg (tmInitRun cfg) frames).st bytes i
      rw [if_pos hi, if_neg (by simp [hs]), if_neg (by simp [hnw])] at hfil
      have ht : trackingFor i (TmEvent.trackingId i w) = true := by
        simp [trackingFor]
      have : TmEvent.trackingId i w ∈ List.filter (trackingFor i)
          (emitFingers cfg (tmProcess cfg (tmInitRun cfg) frames).st bytes).2 :=
        List.mem_filter.mpr ⟨hmem, ht⟩
      rw [hfil] at this
      exact absurd this (by simp)

/-- Witness for `c1_tracking_id_lifecycle` on a concrete short run. -/
theorem c1_tracking_id_lifecycle_witness :
    (((allocSeq cexInfo tmInitState [frameBoth, frameA]).length ≤ 65533 →
      ∀ i j : Nat, ∀ v w : Int, i ≠ j →
      (tmProcess cexInfo (tmInitRun cexInfo) [frameBoth, frameA]).obs.getD i none = some v →
      (tmProcess cexInfo (tmInitRun cexInfo) [frameBoth, frameA]).obs.getD j none = some w →
      v ≠ w) ∧
    (∀ (bytes : List Nat) (i : Nat) (v : Int), i < cexInfo.maxFingers →
      (tmProcess cexInfo (tmInitRun cexInfo) [frameBoth, frameA]).obs.getD i none = some v →
      isSentinel (recAt bytes i) = false →
      ((tmFrameStep cexInfo (tmProcess cexInfo (tmInitRun cexInfo) [frameBoth, frameA])
          bytes).obs.getD i none = some v ∧
       ∀ w : Int, TmEvent.trackingId i w ∉
          (emitFingers cexInfo
            (tmProcess cexInfo (tmInitRun cexInfo) [frameBoth, frameA]).st bytes).2))) :=
  c1_tracking_id_lifecycle cexInfo (by decide) [frameBoth, frameA]

end LogitechTM
